import Mathlib

/-!
Verification of the per-file dynamic-call obfuscation stage of the
repository (file Obfuscation_Pipeline/CFG/last.py): a shallow embedding
of its text scanners, eligibility filters, rewriter and per-file
injection logic, with theorems settling the specification claims.

Source text is modelled as List Char.  Python regular expressions are
hand-compiled into deterministic scanners; each definition cites the
source lines it embeds.  Machine integers do not occur; all counters are
Nat, and Python str.find results of -1 are modelled as Option.
-/

set_option autoImplicit false

namespace LastPy

/-! ### Character classes: Python regex w and s classes on ASCII source text -/

def isW (c : Char) : Bool := c.isAlphanum || c = '_'

def isWS (c : Char) : Bool :=
  c = ' ' || c = '\t' || c = '\n' || c = '\r' || c = '\x0b' || c = '\x0c'

/-- Python str.strip with no argument: remove leading and trailing whitespace. -/
def stripWS (s : List Char) : List Char :=
  ((s.dropWhile isWS).reverse.dropWhile isWS).reverse

/-- Python sep.join(parts): interleave a separator between parts. -/
def joinWith (sep : List Char) : List (List Char) → List Char
  | [] => []
  | [x] => x
  | x :: y :: xs => x ++ sep ++ joinWith sep (y :: xs)

/-- Python str.split(sep) for a one-character separator: the empty string
splits to one empty part, and every separator occurrence opens a new part. -/
def splitOnChar (sep : Char) : List Char → List (List Char)
  | [] => [[]]
  | c :: rest =>
    let r := splitOnChar sep rest
    if c = sep then [] :: r
    else
      match r with
      | [] => [[c]]
      | l :: ls => (c :: l) :: ls

/-- Index of the first occurrence of needle in the haystack (offset by i). -/
def findSubGo (needle : List Char) : List Char → Nat → Option Nat
  | [], i => if needle.isEmpty then some i else none
  | s :: rest, i =>
    if List.isPrefixOf needle (s :: rest) then some i else findSubGo needle rest (i + 1)

/-- Python hay.find(needle) with found/not-found as Option. -/
def findSub (needle hay : List Char) : Option Nat := findSubGo needle hay 0

/-- Python needle in hay (substring containment). -/
def containsSub (hay needle : List Char) : Bool := (findSub needle hay).isSome

/-- Number of positions at which the needle occurs in the haystack. -/
def countSubAt (needle : List Char) : List Char → Nat
  | [] => 0
  | s :: rest =>
    (if List.isPrefixOf needle (s :: rest) then 1 else 0) + countSubAt needle rest

/-! ### The comment-blanking scanner, last.py lines 268-290
(_strip_comments_preserve_layout).

The Python removes block comments first (regex slash-star dot-lazy
star-slash with DOTALL, each matched region rewritten character by
character: newlines kept, everything else a space), then line comments
(regex two slashes to end of line with MULTILINE, the match rewritten to
an equal number of spaces; the match can never contain a newline because
the dot does not match one). -/

/-- Blank every character of a matched comment region except newlines,
the body of _repl_block in last.py lines 276-278. -/
def blankKeepNL (s : List Char) : List Char :=
  s.map (fun c => if c = '\n' then '\n' else ' ')

/-- Split a block-comment tail at its first star-slash closer (the lazy
dot-star of the Python regex): the characters strictly before the first
closer and the characters after it. -/
def splitAtCloseComment (s : List Char) : Option (List Char × List Char) :=
  match findSub ['*', '/'] s with
  | none => none
  | some i => some (s.take i, s.drop (i + 2))

/-- Leftmost-match blanking of slash-star comments, preserving layout: an
unterminated opener is left untouched (the Python regex simply fails to
match there), exactly as in the first substitution of last.py line 279.
Fuel-based recursion (the scan consumes at least one character per step,
so fuel at least the length of the text suffices). -/
def blankBlockGo : Nat → List Char → List Char
  | 0, s => s
  | fuel + 1, s =>
    match s with
    | [] => []
    | '/' :: '*' :: rest =>
      match splitAtCloseComment rest with
      | none => '/' :: '*' :: rest
      | some (inside, after) =>
        ' ' :: ' ' :: (blankKeepNL inside ++ ' ' :: ' ' :: blankBlockGo fuel after)
    | c :: rest => c :: blankBlockGo fuel rest

def blankBlockComments (s : List Char) : List Char := blankBlockGo s.length s

mutual

/-- Leftmost-match blanking of line comments (two adjacent slashes to end
of line become spaces, the newline kept), the second substitution of
last.py lines 282-289. -/
def blankLineComments : List Char → List Char
  | [] => []
  | '/' :: '/' :: rest => ' ' :: ' ' :: blankToEol rest
  | c :: rest => c :: blankLineComments rest

/-- Inside a line comment: spaces until the newline, then resume scanning. -/
def blankToEol : List Char → List Char
  | [] => []
  | '\n' :: rest => '\n' :: blankLineComments rest
  | _ :: rest => ' ' :: blankToEol rest

end

/-- last.py lines 268-290, _strip_comments_preserve_layout: block comments
blanked first, then line comments, newlines and length preserved. -/
def stripCommentsPreserveLayout (s : List Char) : List Char :=
  blankLineComments (blankBlockComments s)

/-! ### The top-level parameter splitter, last.py lines 222-249
(_split_params_top). -/

structure SplitSt where
  parts : List (List Char)
  buf : List Char
  dPar : Nat
  dBrk : Nat
  dAng : Nat
  deriving Repr, DecidableEq

/-- Parenthesis-depth update: closing floors at zero via truncated Nat
subtraction, matching the Python max(0, d-1). -/
def updPar (d : Nat) (ch : Char) : Nat :=
  if ch = '(' then d + 1 else if ch = ')' then d - 1 else d

def updBrk (d : Nat) (ch : Char) : Nat :=
  if ch = '[' then d + 1 else if ch = ']' then d - 1 else d

def updAng (d : Nat) (ch : Char) : Nat :=
  if ch = '<' then d + 1 else if ch = '>' then d - 1 else d

/-- One character step of _split_params_top (last.py lines 233-246): the
three depth counters are updated first; a comma at zero depth flushes the
buffer into the parts list and is itself dropped; every other character
is buffered. -/
def splitStep (st : SplitSt) (ch : Char) : SplitSt :=
  let dPar := updPar st.dPar ch
  let dBrk := updBrk st.dBrk ch
  let dAng := updAng st.dAng ch
  if ch = ',' ∧ dPar = 0 ∧ dBrk = 0 ∧ dAng = 0 then
    { parts := st.parts ++ [st.buf], buf := [], dPar := dPar, dBrk := dBrk, dAng := dAng }
  else
    { parts := st.parts, buf := st.buf ++ [ch], dPar := dPar, dBrk := dBrk, dAng := dAng }

def splitInit : SplitSt := { parts := [], buf := [], dPar := 0, dBrk := 0, dAng := 0 }

/-- last.py lines 222-249, _split_params_top: split on top-level commas;
an empty input yields no parts, and a trailing buffer is appended only
when non-empty. -/
def splitParamsTop (s : List Char) : List (List Char) :=
  if s.isEmpty then []
  else
    let st := s.foldl splitStep splitInit
    st.parts ++ (if st.buf.isEmpty then [] else [st.buf])

/-- The final character of s is a comma sitting at top level: the depth
state reached just before it has all three counters at zero.  (A comma
leaves the depth counters unchanged, so testing before or after it is
equivalent.) -/
def lastCharTopLevelComma (s : List Char) : Bool :=
  match s.getLast? with
  | some ',' =>
    let st := s.dropLast.foldl splitStep splitInit
    st.dPar = 0 && st.dBrk = 0 && st.dAng = 0
  | _ => false

/-! ### Default-value stripping, last.py lines 211-219.

The Python substitutes the regex an equals sign, then lazy whitespace,
then one or more characters outside the class comma, close-paren, CR, LF,
with the empty string.  Because the whitespace class overlaps the
character class (space and tab are in both, CR and LF are not), the
greedy whitespace run backtracks until it exposes a class character. -/

/-- A single backtracking attempt: does position m of the tail start a
class character?  If so, the match spans the m whitespace characters plus
the greedy class run from there. -/
def tryDefaultAt (tail : List Char) (m : Nat) : Option Nat :=
  match (tail.drop m).head? with
  | some c =>
    if !(c = ',' || c = ')' || c = '\r' || c = '\n') then
      some (m + ((tail.drop m).takeWhile
        (fun d => !(d = ',' || d = ')' || d = '\r' || d = '\n'))).length)
    else none
  | none => none

/-- After an equals sign whose following whitespace run has length w, find
the largest m at most w such that position m starts a class character, and
return the length of whitespace-prefix plus greedy class run; none when no
m works (the regex match fails at this equals sign). -/
def tryDefaultM (tail : List Char) : Nat → Option Nat
  | 0 => tryDefaultAt tail 0
  | m + 1 =>
    match tryDefaultAt tail (m + 1) with
    | some x => some x
    | none => tryDefaultM tail m

def stripParamDefaultsGo : Nat → List Char → List Char
  | 0, s => s
  | _ + 1, [] => []
  | fuel + 1, '=' :: tail =>
    match tryDefaultM tail (tail.takeWhile isWS).length with
    | some len => stripParamDefaultsGo fuel (tail.drop len)
    | none => '=' :: stripParamDefaultsGo fuel tail
  | fuel + 1, c :: rest => c :: stripParamDefaultsGo fuel rest

/-- last.py lines 211-219, _strip_param_defaults. -/
def stripParamDefaults (s : List Char) : List Char := stripParamDefaultsGo s.length s

/-! ### Parameter-type extraction and the route key,
last.py lines 477-507 inside scan_swift_functions. -/

/-- Python part.split(colon, 1)[1]: everything after the first colon. -/
def afterFirstColon : List Char → List Char
  | [] => []
  | ':' :: rest => rest
  | _ :: rest => afterFirstColon rest

/-- last.py lines 477-488: defaults stripped, then a plain split on commas
(not the top-level splitter), empty segments dropped, the text after the
first colon (or the whole segment when none) stripped into a type. -/
def paramTypesFromSrc (raw : List Char) : List String :=
  (splitOnChar ',' (stripParamDefaults raw)).foldl
    (fun acc part =>
      if (stripWS part).isEmpty then acc
      else
        let typePart := if part.contains ':' then afterFirstColon part else part
        acc ++ [String.mk (stripWS typePart)]) []

/-- Python sep.join over String. -/
def joinStr (sep : String) : List String → String
  | [] => ""
  | [x] => x
  | x :: y :: xs => x ++ sep ++ joinStr sep (y :: xs)

/-- last.py lines 506-507: the route key is the optional parent plus dot,
the name, the parameter types joined by comma-space in parentheses, and
an arrow plus return type exactly when one is present. -/
def routeKey (parent : Option String) (name : String) (paramTypes : List String)
    (ret : Option String) : String :=
  (match parent with
   | some p => p ++ "."
   | none => "") ++ name ++ "(" ++ joinStr (", ") paramTypes ++ ")" ++
  (match ret with
   | some r => " -> " ++ r
   | none => "")

/-- last.py lines 675-677, _swift_type: strip, empty becomes Void. -/
def swiftType (t : Option String) : String :=
  let s := stripWS ((t.getD ("")).data)
  if s.isEmpty then "Void" else String.mk s

/-! ### The private-to-fileprivate relaxation,
last.py lines 929-942 inside _rename_and_add_wrapper.

The Python substitutes word-bounded private by fileprivate (all
occurrences) in the modifier block preceding the renamed implementation,
but only when the modifier list of the wrapped function contains
private. -/

def boundaryOK : List Char → Bool
  | [] => true
  | c :: _ => !isW c

/-- Scanner for the regex word-boundary private word-boundary, replacement
fileprivate, over a text with the wordness of the previous character as
state.  When the seven letters of private appear but a boundary fails,
they are emitted unchanged and the scan resumes after them: no new match
can start inside them, since private contains no second letter p. -/
def replaceWordPrivGo : Bool → List Char → (List Char × Nat)
  | _, [] => ([], 0)
  | prevW, 'p' :: 'r' :: 'i' :: 'v' :: 'a' :: 't' :: 'e' :: rest =>
    if !prevW && boundaryOK rest then
      let r := replaceWordPrivGo true rest
      ("fileprivate".data ++ r.1, r.2 + 1)
    else
      let r := replaceWordPrivGo true rest
      ("private".data ++ r.1, r.2)
  | _, c :: rest =>
    let r := replaceWordPrivGo (isW c) rest
    (c :: r.1, r.2)

/-- The full substitution with its match count (Python re.subn). -/
def replaceWordPrivateN (s : List Char) : List Char × Nat := replaceWordPrivGo false s

/-- The access-relaxation step of _rename_and_add_wrapper (last.py lines
933-939) restricted to the extracted modifier block: the substitution is
attempted only when the modifier list contains private.  (When the count
is zero the Python skips the splice, which leaves the block unchanged,
exactly as the substitution itself does.) -/
def relaxPrivateInBlock (modifiers : List String) (block : List Char) : List Char :=
  if modifiers.contains ("private") then (replaceWordPrivateN block).1 else block

/-- The Swift access-level ladder from least to most visible; one step up
from private is fileprivate. -/
def accessLevels : List String := ["private", "fileprivate", "internal", "public", "open"]

/-! ### Hand-compiled matchers for the declaration-header regexes.

The regexes in last.py all share the prefix: start of line, lazy
whitespace, any number of attribute tokens (at-sign, word or colon
characters, whitespace), an optional access keyword, whitespace, an
optional final keyword with required following whitespace, then a
declaration-kind keyword.  Alternations are tried left to right with
fallback to the empty alternative, as the regex engine does. -/

def dropLit (pat s : List Char) : Option (List Char) :=
  if List.isPrefixOf pat s then some (s.drop pat.length) else none

/-- The attribute group: zero or more of at-sign, one or more word-or-colon
characters, lazy whitespace (greedy and deterministic here, since what can
follow never starts with whitespace or an at-sign-word). -/
def skipAttrsGo : Nat → List Char → List Char
  | 0, s => s
  | fuel + 1, s =>
    match s with
    | '@' :: rest =>
      let nm := rest.takeWhile (fun c => isW c || c = ':')
      if nm.isEmpty then s
      else skipAttrsGo fuel ((rest.drop nm.length).dropWhile isWS)
    | _ => s

def skipAttrs (s : List Char) : List Char := skipAttrsGo s.length s

def kwFunc : List Char := "func".data
def kwFinal : List Char := "final".data

def accessKws : List (List Char) :=
  ["public".data, "internal".data, "fileprivate".data, "private".data, "open".data]

/-- Kind alternation: the keywords share no prefixes, so at most one
literal can match and trying them in order is exact. -/
def tryKinds (kinds : List (List Char)) (s : List Char) : Option (List Char) :=
  match kinds with
  | [] => none
  | k :: ks =>
    match dropLit k s with
    | some r => some r
    | none => tryKinds ks s

/-- The optional final keyword (final then required whitespace), with
regex fallback to the empty alternative when the continuation fails. -/
def headerFinalOpt {α : Type} (cont : List Char → Option α) (r : List Char) : Option α :=
  match dropLit kwFinal r with
  | some rf =>
    let ws := rf.takeWhile isWS
    if ws.isEmpty then cont r
    else
      match cont (rf.drop ws.length) with
      | some x => some x
      | none => cont r
  | none => cont r

/-- The optional access keyword followed by lazy whitespace, each
alternative tried in the order of the regex with fallback to none. -/
def headerAccessGo {α : Type} (cont : List Char → Option α) :
    List (List Char) → List Char → Option α
  | [], r => headerFinalOpt cont r
  | kw :: kws, r =>
    match dropLit kw r with
    | some r2 =>
      match headerFinalOpt cont (r2.dropWhile isWS) with
      | some x => some x
      | none => headerAccessGo cont kws r
    | none => headerAccessGo cont kws r

/-- The common header prefix of the type-declaration regexes of last.py
(lines 949-951, 1029-1031, 1096, 1143): line-leading whitespace,
attributes, optional access keyword, whitespace, optional final, then a
caller-supplied continuation for the kind and name. -/
def headerMatch {α : Type} (cont : List Char → Option α) (s : List Char) : Option α :=
  headerAccessGo cont accessKws (skipAttrs (s.dropWhile isWS))

/-- Continuation: a kind keyword, required whitespace, a fixed name, and a
trailing word boundary (the following character must not be a word
character). -/
def kindParentCont (kinds : List (List Char)) (parent : List Char) (r : List Char) :
    Option (List Char) :=
  match tryKinds kinds r with
  | none => none
  | some r2 =>
    let ws := r2.takeWhile isWS
    if ws.isEmpty then none
    else
      match dropLit parent (r2.drop ws.length) with
      | none => none
      | some r3 =>
        match r3 with
        | [] => some []
        | c :: _ => if isW c then none else some r3

/-- Continuation: a kind keyword, required whitespace, then any identifier
(letter or underscore, then word characters); returns the identifier. -/
def kindAnyName (kinds : List (List Char)) (r : List Char) : Option (List Char) :=
  match tryKinds kinds r with
  | none => none
  | some r2 =>
    let ws := r2.takeWhile isWS
    if ws.isEmpty then none
    else
      match r2.drop ws.length with
      | c :: rest2 =>
        if c.isAlpha || c = '_' then some (c :: rest2.takeWhile isW) else none
      | [] => none

def kindsTypeDecl : List (List Char) :=
  ["class".data, "struct".data, "enum".data, "actor".data, "extension".data]

def kindsNested : List (List Char) :=
  ["class".data, "struct".data, "enum".data, "actor".data]

def kindsTopLevel : List (List Char) :=
  ["class".data, "struct".data, "enum".data, "actor".data, "protocol".data, "typealias".data]

/-- Scan every line-start position (regex caret with MULTILINE) for the
first position where the matcher succeeds (re.search semantics). -/
def searchLineStartsGo {α : Type} (m : List Char → Option α) :
    Nat → Bool → List Char → Option α
  | 0, _, _ => none
  | fuel + 1, atStart, s =>
    match s with
    | [] => none
    | c :: rest =>
      if atStart then
        match m s with
        | some x => some x
        | none => searchLineStartsGo m fuel (c = '\n') rest
      else searchLineStartsGo m fuel (c = '\n') rest

def searchLineStarts {α : Type} (m : List Char → Option α) (s : List Char) : Option α :=
  searchLineStartsGo m (s.length + 1) true s

/-- last.py line 1143 (the defensive re-check inside inject_per_file):
does any line of the file declare or extend the parent at top level. -/
def parentDeclaredTopLevel (src : List Char) (parent : String) : Bool :=
  (searchLineStarts (headerMatch (kindParentCont kindsTypeDecl parent.data)) src).isSome

/-- Matching close brace: scan the characters after an open brace with a
running depth (last.py lines 1038-1048 and 955-967). -/
def braceCloseIdx : List Char → Nat → Nat → Option Nat
  | [], _, _ => none
  | c :: rest, depth, i =>
    if c = '\x7b' then braceCloseIdx rest (depth + 1) (i + 1)
    else if c = '\x7d' then
      (if depth = 0 then some i else braceCloseIdx rest (depth - 1) (i + 1))
    else braceCloseIdx rest depth (i + 1)

/-- The header regex of _find_parent_body (last.py lines 1029-1035)
including its lazy tail up to the first open brace; returns the suffix
after that brace. -/
def headerOpenAt (parent : List Char) (s : List Char) : Option (List Char) :=
  match headerMatch (kindParentCont kindsTypeDecl parent) s with
  | none => none
  | some r =>
    match findSub ['\x7b'] r with
    | none => none
    | some rel => some (r.drop (rel + 1))

/-- last.py lines 1027-1049, _find_parent_body: the body of the first
matching parent declaration, none when the header never matches or the
brace scan runs off the end. -/
def findParentBody (src parent : List Char) : Option (List Char) :=
  match searchLineStarts (headerOpenAt parent) src with
  | none => none
  | some afterOpen =>
    match braceCloseIdx afterOpen 0 0 with
    | none => none
    | some idx => some (afterOpen.take idx)

/-- One finditer attempt of the nested-type collector regex (word
boundary, kind, whitespace, identifier, word boundary). -/
def kindNameAt (s : List Char) : Option (List Char × List Char) :=
  match tryKinds kindsNested s with
  | none => none
  | some r =>
    let ws := r.takeWhile isWS
    if ws.isEmpty then none
    else
      match r.drop ws.length with
      | c :: rest2 =>
        if c.isAlpha || c = '_' then
          let nmTail := rest2.takeWhile isW
          some (c :: nmTail, rest2.drop nmTail.length)
        else none
      | [] => none

def collectKindNamesGo : Nat → Bool → List Char → List (List Char)
  | 0, _, _ => []
  | fuel + 1, prevW, s =>
    match s with
    | [] => []
    | c :: rest =>
      if !prevW then
        match kindNameAt s with
        | some (nm, r) => nm :: collectKindNamesGo fuel true r
        | none => collectKindNamesGo fuel (isW c) rest
      else collectKindNamesGo fuel (isW c) rest

/-- last.py lines 1051-1061, _collect_nested_types_for_parent: the type
names declared directly inside the parent body (an absent body collects
nothing). -/
def collectNestedTypesForParent (src parent : List Char) : List (List Char) :=
  match findParentBody src parent with
  | none => []
  | some body => collectKindNamesGo (body.length + 1) false body

/-- Generalisation of splitOnChar to a predicate (used for the Python
re.split on whitespace runs, whose empty pieces the callers filter). -/
def splitOnPred (p : Char → Bool) : List Char → List (List Char)
  | [] => [[]]
  | c :: rest =>
    let r := splitOnPred p rest
    if p c then [] :: r
    else
      match r with
      | [] => [[c]]
      | l :: ls => (c :: l) :: ls

/-- last.py lines 1086-1103, _collect_top_level_types: per line, a header
match is attempted only at brace depth zero; the depth is updated from the
braces of the line and clamped at zero. -/
def collectTopLevelTypesGo : List (List Char) → Nat → List (List Char)
  | [], _ => []
  | line :: rest, depth =>
    let opens := (line.filter (fun c => c = '\x7b')).length
    let closes := (line.filter (fun c => c = '\x7d')).length
    let found :=
      if depth = 0 then
        match headerMatch (kindAnyName kindsTopLevel) line with
        | some nm => [nm]
        | none => []
      else []
    found ++ collectTopLevelTypesGo rest (depth + opens - closes)

def collectTopLevelTypes (src : List Char) : List (List Char) :=
  collectTopLevelTypesGo (splitOnChar '\n' src) 0

/-! ### Function records, last.py lines 520-544.

One record per discovered function, with the metadata consumed by the
classifier and rewriter.  The file-scoped identifier of a file (a SHA-1
prefix in the Python, last.py lines 671-673) is treated as an opaque
input string: no claim concerns its value. -/

structure FuncRecord where
  file : String
  parent_type : Option String
  name : String
  params_src : String
  param_types : List String
  return_type : Option String
  is_static : Bool
  modifiers : List String
  route_key : String
  parent_depth : Nat
  is_parent_generic : Bool
  is_parent_actor : Bool
  is_parent_extension : Bool
  is_parent_extension_constrained : Bool
  is_parent_global_actor : Bool
  is_func_global_actor : Bool
  is_parent_declared_in_project : Bool
  is_protocol_req_impl : Bool
  has_external_protocols_in_scope : Bool
  deriving Repr, DecidableEq

/-- last.py lines 1015-1025, _strip_type_tokens: strip, drop trailing
question and exclamation marks, unwrap one bracket pair, cut at the first
angle bracket, stripping again at each stage as the Python does. -/
def stripTypeTokens (tp : List Char) : List Char :=
  let t1 := stripWS tp
  let t2 := (t1.reverse.dropWhile (fun c => c = '?' || c = '!')).reverse
  let t3 :=
    if t2.head? = some '[' && t2.getLast? = some ']' then stripWS ((t2.drop 1).dropLast)
    else t2
  if t3.contains '<' then stripWS (t3.takeWhile (fun c => c ≠ '<')) else t3

/-- last.py lines 1063-1081, _uses_bare_nested_type: a parameter or return
type whose stripped base is an unqualified name equal to a type nested in
the parent body. -/
def usesBareNestedType (original : List Char) (t : FuncRecord) : Bool :=
  match t.parent_type with
  | none => false
  | some parent =>
    let nested := collectNestedTypesForParent original parent.data
    if nested.isEmpty then false
    else
      (t.param_types.any (fun p =>
        let base := stripTypeTokens p.data
        if base.isEmpty || base.contains '.' then false else nested.contains base)) ||
      (let ret := stripTypeTokens ((t.return_type.getD ("")).data)
       !ret.isEmpty && !(ret.contains '.') && nested.contains ret)

def stdWhitelist : List String :=
  ["String", "Int", "Double", "Float", "Bool", "Character", "UInt", "UInt8", "UInt16",
   "UInt32", "UInt64", "Int8", "Int16", "Int32", "Int64", "Date", "Data", "URL", "UUID",
   "Any", "AnyObject", "Never", "Void"]

/-- last.py lines 1113-1114, is_bare_cap. -/
def isBareCap (tok : List Char) : Bool :=
  match tok with
  | [] => false
  | c :: _ => c.isUpper && !(tok.contains '.') && !(tok.contains '[') && !(tok.contains ']')

/-- last.py lines 1105-1124, _uses_bare_unknown_capitalized_type. -/
def usesBareUnknownCapitalizedType (original : List Char) (t : FuncRecord) : Bool :=
  match t.parent_type with
  | none => false
  | some _ =>
    let toplv := collectTopLevelTypes original
    let bad := fun (base : List Char) =>
      isBareCap base && !(toplv.contains base) &&
        !((stdWhitelist.map String.data).contains base)
    (t.param_types.any (fun p => bad (stripTypeTokens p.data))) ||
    bad (stripTypeTokens ((t.return_type.getD ("")).data))

/-! ### Function-declaration matchers used by the rewriter,
last.py lines 836-849 and 904-941. -/

/-- The tail of the patterns: the func keyword already consumed, require
whitespace, the fixed name, lazy whitespace, an open parenthesis. -/
def funcTailMatch (name : List Char) (s3 : List Char) : Bool :=
  match s3 with
  | c :: _ =>
    if isWS c then
      match dropLit name (s3.dropWhile isWS) with
      | none => false
      | some s4 =>
        match s4.dropWhile isWS with
        | '(' :: _ => true
        | _ => false
    else false
  | [] => false

/-- last.py line 837 or 845: line-anchored match of lazy whitespace,
attributes, lazy whitespace, func, whitespace, the name, lazy whitespace,
open parenthesis. -/
def funcDeclLineMatch (name : List Char) (line : List Char) : Bool :=
  let s2 := (skipAttrs (line.dropWhile isWS)).dropWhile isWS
  match dropLit kwFunc s2 with
  | none => false
  | some s3 => funcTailMatch name s3

/-- Unanchored attempt of word-boundary func, whitespace, name, lazy
whitespace, open parenthesis at the head of the suffix. -/
def matchFuncAt (name : List Char) (s : List Char) : Bool :=
  match dropLit kwFunc s with
  | none => false
  | some s3 => funcTailMatch name s3

/-- re.search of the pattern at any position with a word boundary before
func; returns the match start (the start of group one in last.py lines
908 and 930). -/
def searchFuncDeclGo (name : List Char) : List Char → Nat → Bool → Option Nat
  | [], _, _ => none
  | c :: rest, i, prevW =>
    if !prevW && matchFuncAt name (c :: rest) then some i
    else searchFuncDeclGo name rest (i + 1) (isW c)

def searchFuncDecl (name s : List Char) : Option Nat := searchFuncDeclGo name s 0 false

/-- last.py line 906: the renamed implementation sibling already exists in
the text (the idempotence guard of _rename_and_add_wrapper). -/
def containsImplDecl (src : List Char) (name : String) : Bool :=
  (searchFuncDecl (String.data ("obfImpl_" ++ name)) src).isSome

/-! ### Attribute-token machinery of _rename_and_add_wrapper,
last.py lines 851-903 and 990-1003. -/

/-- Python splitlines with keepends=True on newline-separated text. -/
def splitLinesKeepEnds : List Char → List (List Char)
  | [] => []
  | '\n' :: rest => ['\n'] :: splitLinesKeepEnds rest
  | c :: rest =>
    match splitLinesKeepEnds rest with
    | [] => [[c]]
    | l :: ls => (c :: l) :: ls

/-- last.py lines 852-854, _attr_tokens_from_line: every attribute token
(at-sign preceded by start or whitespace, word-or-colon name, optional
whitespace and parenthesised argument) in scan order. -/
def attrTokensGo : Nat → Bool → List Char → List (List Char)
  | 0, _, _ => []
  | fuel + 1, ok, s =>
    match s with
    | [] => []
    | '@' :: rest =>
      if ok then
        let nm := rest.takeWhile (fun c => isW c || c = ':')
        if nm.isEmpty then attrTokensGo fuel false rest
        else
          let r2 := rest.drop nm.length
          let ws := r2.takeWhile isWS
          match r2.drop ws.length with
          | '(' :: r4 =>
            let inner := r4.takeWhile (fun c => c ≠ ')')
            (match r4.drop inner.length with
             | ')' :: r6 =>
               ('@' :: nm ++ ws ++ '(' :: inner ++ [')']) :: attrTokensGo fuel false r6
             | _ => ('@' :: nm) :: attrTokensGo fuel false r2)
          | _ => ('@' :: nm) :: attrTokensGo fuel false r2
      else attrTokensGo fuel false rest
    | c :: rest => attrTokensGo fuel (isWS c) rest

def attrTokensFromLine (line : List Char) : List (List Char) :=
  attrTokensGo (line.length + 1) true line

def startsWithChars (pre s : List Char) : Bool := List.isPrefixOf pre s

def endsWithChars (suf s : List Char) : Bool := List.isPrefixOf suf.reverse s.reverse

/-- last.py lines 856-859, _is_spacer_line. -/
def isSpacerLine (l : List Char) : Bool :=
  let st := stripWS l
  st.isEmpty || startsWithChars (String.data ("///")) st ||
    startsWithChars (String.data ("/**")) st || startsWithChars (['*']) st ||
    startsWithChars (String.data ("*/")) st || startsWithChars (String.data ("#if")) st ||
    startsWithChars (String.data ("#endif")) st || startsWithChars (String.data ("#else")) st

/-- last.py line 876: the attribute-only line regex (anchored both ends,
matched against the stripped line), with the regex fallback on the
optional parenthesised group. -/
def attrOnlyLine (stripped : List Char) : Bool :=
  match stripped.dropWhile isWS with
  | '@' :: rest =>
    let nm := rest.takeWhile (fun c => isW c || c = ':')
    if nm.isEmpty then false
    else
      let r2 := rest.drop nm.length
      let ws := r2.takeWhile isWS
      let withGroup :=
        match r2.drop ws.length with
        | '(' :: r4 =>
          let inner := r4.takeWhile (fun c => c ≠ ')')
          (match r4.drop inner.length with
           | ')' :: r6 => (r6.dropWhile isWS).isEmpty
           | _ => false)
        | _ => false
      withGroup || (r2.dropWhile isWS).isEmpty
  | _ => false

/-- last.py lines 866-885: walk up to twelve lines above the declaration,
skipping spacer lines, collecting attribute-only lines (their tokens in
scan order, later lines first) and stopping at anything else.  The first
component accumulates above_tokens, the second above_attr_lines. -/
def collectAboveGo (lines : List (List Char)) (lo : Nat) :
    Nat → List (List Char) × List (Nat × List (List Char))
  | 0 => ([], [])
  | jp + 1 =>
    if jp < lo then ([], [])
    else
      let raw := lines.getD jp []
      if isSpacerLine raw then collectAboveGo lines lo jp
      else
        let stripped := stripWS raw
        if stripped.head? = some '@' then
          if attrOnlyLine stripped then
            let toks := attrTokensFromLine raw
            if toks.isEmpty then ([], [])
            else
              let rec2 := collectAboveGo lines lo jp
              (toks ++ rec2.1, (jp, toks) :: rec2.2)
          else ([], [])
        else ([], [])

def collectAbove (lines : List (List Char)) (funcIdx : Nat) :
    List (List Char) × List (Nat × List (List Char)) :=
  collectAboveGo lines (funcIdx - 12) funcIdx

/-- last.py lines 888-893, _is_preserved: at-objc prefixed, the two
interface-builder attributes, or any global-actor attribute. -/
def isPreservedTok (tok : List Char) : Bool :=
  let base := stripWS tok
  startsWithChars (String.data ("@objc")) base ||
    base = String.data ("@IBAction") || base = String.data ("@IBSegueAction") ||
    endsWithChars (String.data ("Actor")) base

/-- The leading whitespace-or-start alternative, the token literally, and
the lookahead whitespace-or-end of the removal regex at last.py line 902;
matches are replaced by one space and scanning resumes after them. -/
def subTokGo (tok : List Char) : Nat → Bool → List Char → List Char
  | 0, _, s => s
  | fuel + 1, atStart, s =>
    match s with
    | [] => []
    | c :: rest =>
      let ws := s.takeWhile isWS
      if atStart || !ws.isEmpty then
        match dropLit tok (s.drop ws.length) with
        | some s3 =>
          if s3.isEmpty || (s3.head?.map isWS).getD false then ' ' :: subTokGo tok fuel false s3
          else c :: subTokGo tok fuel false rest
        | none => c :: subTokGo tok fuel false rest
      else c :: subTokGo tok fuel false rest

def subPreservedTok (tok line : List Char) : List Char :=
  subTokGo tok (line.length + 1) true line

/-- One attempt of the rename pattern (last.py line 908): func keyword,
required whitespace, the name, lazy whitespace, an open parenthesis; the
replacement keeps both groups and swaps the name. -/
def tryRenameAt (name impl s : List Char) : Option (List Char) :=
  match dropLit kwFunc s with
  | none => none
  | some s3 =>
    let ws1 := s3.takeWhile isWS
    if ws1.isEmpty then none
    else
      match dropLit name (s3.drop ws1.length) with
      | none => none
      | some s4 =>
        let ws2 := s4.takeWhile isWS
        match s4.drop ws2.length with
        | '(' :: rest2 => some (kwFunc ++ ws1 ++ impl ++ ws2 ++ '(' :: rest2)
        | _ => none

/-- re.subn with count one of the rename pattern: the leftmost match with
a word boundary before func is rewritten; none mirrors a zero count. -/
def renameFuncGo (name impl : List Char) : Nat → Bool → List Char → Option (List Char)
  | 0, _, _ => none
  | fuel + 1, prevW, s =>
    match s with
    | [] => none
    | c :: rest =>
      if !prevW then
        match tryRenameAt name impl s with
        | some res => some res
        | none => (renameFuncGo name impl fuel (isW c) rest).map (fun r => c :: r)
      else (renameFuncGo name impl fuel (isW c) rest).map (fun r => c :: r)

def renameFuncIn (name impl s : List Char) : Option (List Char) :=
  renameFuncGo name impl (s.length + 1) false s

/-- Python rfind of a character strictly before a position. -/
def lastIdxOf (ch : Char) (s : List Char) : Option Nat :=
  (s.foldl (fun (st : Nat × Option Nat) c =>
    (st.1 + 1, if c = ch then some st.1 else st.2)) (0, none)).2

/-- last.py lines 679-691, _param_var_names: the forwarded argument names
of the wrapper, from a plain comma split of the parameter source. -/
def paramVarNames (paramsSrc : List Char) : List String :=
  let parts := ((splitOnChar ',' paramsSrc).map stripWS).filter (fun p => !p.isEmpty)
  parts.map (fun part =>
    if !(part.contains ':') then
      let toks := (splitOnPred isWS part).filter (fun x => !x.isEmpty && x ≠ ['_'])
      match toks.getLast? with
      | some t => String.mk t
      | none => "arg"
    else
      let left := stripWS (part.takeWhile (fun c => c ≠ ':'))
      let toks := (splitOnPred isWS left).filter (fun x => !x.isEmpty && x ≠ ['_'])
      if toks.length ≥ 2 then String.mk (toks.getLast?.getD [])
      else
        match toks with
        | t :: _ => String.mk t
        | [] => "arg")

/-! ### The insertion-point scan of _rename_and_add_wrapper,
last.py lines 944-972: iterate the matches of the parent type-header
regex (each ending at its first open brace), brace-match the body, and
take the body end of the first body containing the implementation. -/

def insertPointGo (parent : List Char) (implPos : Nat) :
    Nat → Bool → List Char → Nat → Option Nat
  | 0, _, _, _ => none
  | fuel + 1, atStart, s, i =>
    match s with
    | [] => none
    | c :: rest =>
      if atStart then
        match headerMatch (kindParentCont kindsTypeDecl parent) s with
        | some r =>
          (match findSub ['\x7b'] r with
           | none => insertPointGo parent implPos fuel (c = '\n') rest (i + 1)
           | some rel =>
             let consumed := s.length - r.length
             let absOpen := i + consumed + rel
             let afterOpen := r.drop (rel + 1)
             match braceCloseIdx afterOpen 0 0 with
             | some cidx =>
               let bodyEnd := absOpen + 1 + cidx
               if absOpen + 1 ≤ implPos && implPos < bodyEnd then some bodyEnd
               else insertPointGo parent implPos fuel false afterOpen (absOpen + 1)
             | none => insertPointGo parent implPos fuel false afterOpen (absOpen + 1))
        | none => insertPointGo parent implPos fuel (c = '\n') rest (i + 1)
      else insertPointGo parent implPos fuel (c = '\n') rest (i + 1)

def insertPoint (parent : List Char) (implPos : Nat) (s : List Char) : Option Nat :=
  insertPointGo parent implPos (s.length + 1) true s 0

/-! ### The rewriter, last.py lines 827-1005 (_rename_and_add_wrapper). -/

/-- The tail of _rename_and_add_wrapper after the renamed text and the
position of the implementation are settled (last.py lines 944-1005):
locate the insertion point, then synthesize the wrapper.  The src
argument is the original text for the failure returns. -/
def finishWrapper (src newSrc : List Char) (m2 : Nat) (name : String)
    (parentType : Option String) (isStatic : Bool) (paramsSrc : String)
    (returnType : Option String) (routeKeyStr : String) (fileId : String)
    (modifiers : List String) (toDeleteLines : List (List Char))
    (inlineTokens : List (List Char)) : List Char × Bool :=
  match parentType with
  | none => (src, false)
  | some parent =>
    match insertPoint parent.data m2 newSrc with
    | none => (src, false)
    | some insertAt =>
      let ret := swiftType returnType
      let access := ((modifiers.filter (fun t => accessLevels.contains t)).head?).getD ""
      let wrapperHdr := (if access = "" then "" else access ++ " ") ++
        (if isStatic then "static " else "") ++
        "func " ++ name ++ "(" ++ paramsSrc ++ ")" ++
        (if ret = "Void" then "" else " -> " ++ ret)
      let argNames := paramVarNames paramsSrc.data
      let callArgs := (if !isStatic then ["self"] else []) ++ argNames
      let callJoined := joinStr (", ") callArgs
      let callPfx := "(\"" ++ routeKeyStr ++ "\"" ++
        (if callJoined = "" then "" else ", ") ++ callJoined ++ ")"
      let body :=
        if ret = "Void" then
          "\x7b\n  try! OBFF" ++ fileId ++ ".callVoid" ++ callPfx ++ "\n\x7d"
        else
          "\x7b\n  return try! OBFF" ++ fileId ++ ".call" ++ callPfx ++ "\n\x7d"
      let inlinePreserved := inlineTokens.filter isPreservedTok
      let synthesized := joinStr "" (inlinePreserved.map (fun t => String.mk t ++ "\n"))
      let attrsPfx := (if inlinePreserved.isEmpty then "" else synthesized) ++
        joinStr "" (toDeleteLines.map String.mk)
      let wrapper := "\n\n" ++ attrsPfx ++ wrapperHdr ++ "\n" ++ body ++ "\n"
      (newSrc.take insertAt ++ wrapper.data ++ newSrc.drop insertAt, true)

/-- last.py lines 827-1005, _rename_and_add_wrapper: find the declaration
line (failure and the missing-declaration fallback both return the text
unchanged with false, lines 843-849); collect declaration-leading
attribute tokens; stop unchanged when the implementation sibling already
exists (line 906); rename; delete preserved attribute-only lines; relax a
private implementation to fileprivate; insert the wrapper before the
closing brace of the enclosing type body. -/
def renameAndAddWrapper (src : List Char) (name : String) (parentType : Option String)
    (isStatic : Bool) (paramsSrc : String) (returnType : Option String)
    (routeKeyStr : String) (fileId : String) (modifiers : List String) :
    List Char × Bool :=
  let lines := splitLinesKeepEnds src
  match lines.findIdx? (fun l => funcDeclLineMatch name.data l) with
  | none => (src, false)
  | some funcIdx =>
    let origLine := lines.getD funcIdx []
    let inlineTokens := attrTokensFromLine origLine
    let above := collectAbove lines funcIdx
    let aboveTokens := above.1
    let aboveAttrLines := above.2
    let preserved := (aboveTokens ++ inlineTokens).filter isPreservedTok
    let newFuncLine := preserved.foldl (fun l tok => subPreservedTok tok l) origLine
    let impl := "obfImpl_" ++ name
    if containsImplDecl src name then (src, false)
    else
      match renameFuncIn name.data impl.data newFuncLine with
      | none => (src, false)
      | some renamedLine =>
        let toDeleteIdx := ((aboveAttrLines.filter
          (fun p => p.2.any (fun tk => preserved.contains tk))).map (fun p => p.1))
        let newLines := lines.enum.map (fun p =>
          if p.1 = funcIdx then renamedLine
          else if toDeleteIdx.contains p.1 then
            (if p.2.getLast? = some '\n' then ['\n'] else [])
          else p.2)
        let newSrc := newLines.flatten
        match searchFuncDecl impl.data newSrc with
        | none => (src, false)
        | some m2a =>
          let toDeleteLines := (toDeleteIdx.reverse).map (fun i => lines.getD i [])
          if modifiers.contains ("private") then
            let searchStart :=
              match lastIdxOf '\x7d' (newSrc.take m2a) with
              | some p => p + 1
              | none => 0
            let block := (newSrc.take m2a).drop searchStart
            let nb := replaceWordPrivateN block
            if nb.2 > 0 then
              let relaxedSrc := newSrc.take searchStart ++ nb.1 ++ newSrc.drop m2a
              match searchFuncDecl impl.data relaxedSrc with
              | none => (src, false)
              | some m2b =>
                finishWrapper src relaxedSrc m2b name parentType isStatic paramsSrc
                  returnType routeKeyStr fileId modifiers toDeleteLines inlineTokens
            else
              finishWrapper src newSrc m2a name parentType isStatic paramsSrc
                returnType routeKeyStr fileId modifiers toDeleteLines inlineTokens
          else
            finishWrapper src newSrc m2a name parentType isStatic paramsSrc
              returnType routeKeyStr fileId modifiers toDeleteLines inlineTokens

/-! ### The per-file runtime and block injection,
last.py lines 22, 693-730 and 805-826. -/

/-- last.py line 22: both delimiters are configured as the empty string. -/
def OBF_BEGIN : String := ""

def OBF_END : String := ""

def importNeedle : List Char := "import StringSecurity".data

/-- Python hay.find(needle, start). -/
def findSubFrom (needle hay : List Char) (start : Nat) : Option Nat :=
  findSubGo needle (hay.drop start) start

/-- last.py lines 805-826, inject_or_replace_block: with the empty
delimiters both find results are guarded to the not-found value, so the
replace branch never fires; the import line is hoisted or prepended and
the block is prepended to the text. -/
def injectOrReplaceBlock (originalText blockText : List Char) : List Char :=
  let startPos : Option Nat :=
    if OBF_BEGIN ≠ "" then findSub OBF_BEGIN.data originalText else none
  let endPos : Option Nat :=
    if OBF_BEGIN ≠ "" then
      match startPos with
      | some st => findSubFrom OBF_END.data originalText (st + OBF_BEGIN.length)
      | none => none
    else none
  match startPos, endPos with
  | some st, some en =>
    originalText.take st ++ blockText ++ originalText.drop (en + OBF_END.length)
  | _, _ =>
    if containsSub originalText importNeedle then
      let lines := splitOnChar '\n' originalText
      let importLines := lines.filter (fun l => containsSub l importNeedle)
      let otherLines := lines.filter (fun l => !containsSub l importNeedle)
      let resultLines := importLines ++ [[]] ++ otherLines
      blockText ++ String.data ("\n\n") ++ joinWith ['\n'] resultLines
    else
      (String.data ("import StringSecurity\n") ++ blockText) ++
        String.data ("\n\n") ++ originalText

/-- last.py lines 693-730, build_perfile_runtime (the max-params argument
is accepted and unused, as in the Python). -/
def buildPerfileRuntime (fileId : String) (routes : List String) (maxParams : Nat) :
    List Char :=
  let _ := maxParams
  let enumName := "OBFF" ++ fileId
  let lns : List String :=
    [OBF_BEGIN,
     "enum " ++ enumName ++ " \x7b",
     "  static private var routes: [String: ([Any]) throws -> Any] = [:]",
     "  static private var didInstall = false",
     "  static private func install() \x7b"] ++
    (routes.map (fun r => "    " ++ r)) ++
    ["  \x7d",
     "  static private func ensure() \x7b if !didInstall \x7b didInstall = true; install() \x7d \x7d",
     "",
     "  @discardableResult",
     "  static func register(_ key: String, _ fn: @escaping ([Any]) throws -> Any, overwrite: Bool = false) -> Bool \x7b",
     "    if !overwrite, routes[key] != nil \x7b return false \x7d",
     "    routes[key] = fn",
     "    return true",
     "  \x7d",
     "  static func call<R>(_ key: String, _ args: Any...) throws -> R \x7b",
     "    ensure()",
     "    guard let fn = routes[key] else \x7b preconditionFailure(\"[OBF] missing key: \\(key)\") \x7d",
     "    let res = try fn(args)",
     "    guard let cast = res as? R else \x7b preconditionFailure(\"[OBF] bad return for \\(key)\") \x7d",
     "    return cast",
     "  \x7d",
     "  static func callVoid(_ key: String, _ args: Any...) throws \x7b",
     "    ensure()",
     "    guard let fn = routes[key] else \x7b preconditionFailure(\"[OBF] missing key: \\(key)\") \x7d",
     "    _ = try fn(args)",
     "  \x7d",
     ""] ++
    ["\x7d"]
  (joinStr "\n" lns).data

/-! ### The per-file injection pass, last.py lines 1007-1196
(inject_per_file).  File input and output are purified: the text is an
argument and the written field carries the write-back (none models both
the dry run and the no-write early returns).  The wrappedRecs field
records exactly the targets for which the rewriter reported success, the
increments of wrapped_count. -/

structure Policy where
  maxParams : Nat
  dryRun : Bool
  skipExternalExtensions : Bool
  skipExternalProtocolReqs : Bool
  allowInternalProtocolReqs : Bool
  skipExternalProtocolExtensionMembers : Bool
  deriving Repr, DecidableEq

/-- The first skip of the target loop, last.py lines 1126-1127: more
parameters than the configured maximum. -/
def paramLimitSkip (pol : Policy) (t : FuncRecord) : Bool :=
  decide (t.param_types.length > pol.maxParams)

/-- The safety filters of the target loop, last.py lines 1126-1177, as one
left-to-right disjunction: each disjunct is one continue of the Python,
in source order. -/
def injectSkip (original : List Char) (pol : Policy) (t : FuncRecord) : Bool :=
  paramLimitSkip pol t ||
  (match t.parent_type with
   | some parent =>
     (t.is_parent_generic && !t.is_static) ||
     (parent.data.contains '<' || parent.data.contains '>') ||
     decide (t.parent_depth > 1) ||
     !parentDeclaredTopLevel original parent
   | none => false) ||
  (pol.skipExternalProtocolExtensionMembers && t.is_parent_extension &&
    t.has_external_protocols_in_scope) ||
  (if t.is_protocol_req_impl then !pol.allowInternalProtocolReqs
   else pol.skipExternalProtocolReqs && t.has_external_protocols_in_scope &&
     t.is_parent_extension) ||
  (pol.skipExternalExtensions && t.is_parent_extension &&
    !t.is_parent_declared_in_project) ||
  t.is_parent_extension_constrained ||
  (t.parent_type.isSome && !t.is_static &&
    (t.is_parent_actor || t.is_parent_global_actor || t.is_func_global_actor) &&
    !(t.modifiers.contains ("nonisolated"))) ||
  usesBareNestedType original t ||
  usesBareUnknownCapitalizedType original t

/-- last.py lines 1182-1192: the route registration line appended after a
successful wrap. -/
def routeLine (fileId : String) (t : FuncRecord) : String :=
  let impl := "obfImpl_" ++ t.name
  let n := t.param_types.length
  let paramTypesStr := joinStr (", ") t.param_types
  let retStr := swiftType t.return_type
  let wrapAndRef : String × String :=
    match t.parent_type with
    | some parent =>
      if !t.is_static then
        let needsIsolated := (t.is_parent_actor || t.is_parent_global_actor ||
          t.is_func_global_actor) && !(t.modifiers.contains ("nonisolated"))
        let ownerTy := if needsIsolated then "(isolated " ++ parent ++ ")"
                       else "(" ++ parent ++ ")"
        let sig := ownerTy ++ " -> (" ++ paramTypesStr ++ ") -> " ++ retStr
        ("wrapM" ++ toString n, parent ++ "." ++ impl ++ " as " ++ sig)
      else
        let sig := "(" ++ paramTypesStr ++ ") -> " ++ retStr
        ("wrap" ++ toString n, parent ++ "." ++ impl ++ " as " ++ sig)
    | none =>
      let sig := "(" ++ paramTypesStr ++ ") -> " ++ retStr
      ("wrap" ++ toString n, impl ++ " as " ++ sig)
  "_ = OBFF" ++ fileId ++ ".register(\"" ++ t.route_key ++ "\", CFGWrappingUtils." ++
    wrapAndRef.1 ++ "(" ++ wrapAndRef.2 ++ "))"

structure LoopSt where
  text : List Char
  routes : List String
  recs : List FuncRecord

/-- One iteration of the target loop of inject_per_file: a skipped target
leaves the state unchanged; otherwise the rewriter runs on the threaded
text and success swaps in the new text, appends the route registration
and counts the wrap. -/
def injectStep (original : List Char) (fileId : String) (pol : Policy)
    (st : LoopSt) (t : FuncRecord) : LoopSt :=
  if injectSkip original pol t then st
  else if (renameAndAddWrapper st.text t.name t.parent_type t.is_static t.params_src
      t.return_type t.route_key fileId t.modifiers).2 then
    { text := (renameAndAddWrapper st.text t.name t.parent_type t.is_static t.params_src
        t.return_type t.route_key fileId t.modifiers).1,
      routes := st.routes ++ [routeLine fileId t], recs := st.recs ++ [t] }
  else st

structure InjectOutcome where
  touched : Bool
  wrappedCount : Nat
  written : Option (List Char)
  wrappedRecs : List FuncRecord
  deriving Repr, DecidableEq

/-- The target loop of inject_per_file, threading the rewritten text, the
route registrations and the wrapped records from the initial state. -/
def injectLoopRun (original : List Char) (fileId : String) (pol : Policy)
    (targets : List FuncRecord) : LoopSt :=
  targets.foldl (injectStep original fileId pol)
    { text := original, routes := [], recs := [] }

/-- last.py lines 1007-1196, inject_per_file: empty targets return
untouched immediately (line 1008); a zero wrapped count returns untouched
with no write (line 1193); otherwise the runtime block is injected and
the file written unless dry-run (lines 1194-1196). -/
def injectPerFile (original : List Char) (fileId : String) (targets : List FuncRecord)
    (pol : Policy) : InjectOutcome :=
  if targets.isEmpty then
    { touched := false, wrappedCount := 0, written := none, wrappedRecs := [] }
  else if (injectLoopRun original fileId pol targets).recs.length = 0 then
    { touched := false, wrappedCount := 0, written := none, wrappedRecs := [] }
  else
    { touched := true,
      wrappedCount := (injectLoopRun original fileId pol targets).recs.length,
      written :=
        if pol.dryRun then none
        else some (injectOrReplaceBlock (injectLoopRun original fileId pol targets).text
          (buildPerfileRuntime fileId (injectLoopRun original fileId pol targets).routes
            pol.maxParams)),
      wrappedRecs := (injectLoopRun original fileId pol targets).recs }

/-! ### Input-error handling, last.py lines 135-146 (load_exceptions) and
377-381 (the per-file read inside scan_swift_functions).

File-system reads are purified into functions from path to read result.
For exception files the result distinguishes a missing file, a read or
parse failure, a top-level JSON list, an object with a rules key, and any
other JSON shape; the first three abort via fail (sys.exit), modelled as
the error constructor.  For source files the read either yields content
or fails; the Python catches the failure and continues with the next
file. -/

structure ExcRule where
  name : Option String
  kind : Option String
  deriving Repr, DecidableEq

inductive ExcFileRead where
  | missing
  | unreadable
  | rulesList (rs : List ExcRule)
  | rulesObj (rs : List ExcRule)
  | otherJson
  deriving Repr, DecidableEq

/-- The accumulation loop of load_exceptions, last.py lines 137-146. -/
def loadExceptionsGo (fs : String → ExcFileRead) :
    List String → List ExcRule → Except String (List ExcRule)
  | [], acc => Except.ok acc
  | p :: rest, acc =>
    match fs p with
    | ExcFileRead.missing => Except.error ("exceptions file not found: " ++ p)
    | ExcFileRead.unreadable => Except.error ("error reading exceptions file " ++ p)
    | ExcFileRead.otherJson =>
      Except.error ("exceptions file must be a JSON list or rules object: " ++ p)
    | ExcFileRead.rulesList rs => loadExceptionsGo fs rest (acc ++ rs)
    | ExcFileRead.rulesObj rs => loadExceptionsGo fs rest (acc ++ rs)

/-- last.py lines 135-146, load_exceptions: no paths yield no rules;
otherwise the files are read in order and any missing, unreadable or
ill-shaped file is fatal (fail aborts the run). -/
def loadExceptions (fs : String → ExcFileRead) (paths : List String) :
    Except String (List ExcRule) :=
  if paths.isEmpty then Except.ok []
  else loadExceptionsGo fs paths []

/-- last.py lines 377-381 inside scan_swift_functions: each source file is
read inside try, and a failed read continues with the next file; the
per-file scan itself is abstracted as the perFile argument (lines
382-550), since only the recovery control flow is at issue. -/
def scanFilesSkipUnreadable (α : Type) (perFile : String → List α)
    (fs : String → Option String) (paths : List String) : List α :=
  paths.foldl (fun acc p =>
    match fs p with
    | none => acc
    | some content => acc ++ perFile content) []

/-! ### Verification-level definitions: the relation of the scrubbed view
to its input, the conditions of the safety-policy soundness claim, and
concrete inputs used by the witnesses. -/

/-- Each character of the scrubbed view is the original character or a
blank standing for comment content, and a blank never replaces a
newline. -/
def blankRel (x y : Char) : Prop := y = x ∨ (y = ' ' ∧ x ≠ '\n')

/-- The five conditions of the safety-policy soundness claim: an instance
method of a generic enclosing type, a member of a nested type (parent
depth greater than one), an instance method on an actor or global-actor
parent without the nonisolated modifier, a member of a constrained
extension, or a function whose parameter or return types reference a bare
nested-type name of its parent. -/
def c2cond (orig : List Char) (t : FuncRecord) : Bool :=
  (t.parent_type.isSome && t.is_parent_generic && !t.is_static) ||
  (t.parent_type.isSome && decide (t.parent_depth > 1)) ||
  (t.parent_type.isSome && !t.is_static &&
    (t.is_parent_actor || t.is_parent_global_actor) &&
    !(t.modifiers.contains ("nonisolated"))) ||
  t.is_parent_extension_constrained ||
  usesBareNestedType orig t

/-! Concrete inputs for the witnesses. -/

def demoPolicy : Policy :=
  { maxParams := 10, dryRun := false, skipExternalExtensions := true,
    skipExternalProtocolReqs := true, allowInternalProtocolReqs := true,
    skipExternalProtocolExtensionMembers := true }

/-- A file already holding the renamed implementation sibling of add. -/
def c1DemoSrc : List Char :=
  ("struct A \x7b\n  func obfImpl_add() \x7b\x7d\n  func add() \x7b\x7d\n\x7d\n").data

def c1DemoRec : FuncRecord :=
  { file := "A.swift", parent_type := some "A", name := "add", params_src := "",
    param_types := [], return_type := none, is_static := false, modifiers := [],
    route_key := "A.add()", parent_depth := 1, is_parent_generic := false,
    is_parent_actor := false, is_parent_extension := false,
    is_parent_extension_constrained := false, is_parent_global_actor := false,
    is_func_global_actor := false, is_parent_declared_in_project := true,
    is_protocol_req_impl := false, has_external_protocols_in_scope := false }

/-- A record with exactly the configured maximum number of parameters. -/
def c6AtLimitRec : FuncRecord :=
  { c1DemoRec with
    name := "wide",
    param_types := ["Int", "Int", "Int", "Int", "Int", "Int", "Int", "Int", "Int", "Int"] }

/-- A record with one parameter more than the configured maximum. -/
def c6OverLimitRec : FuncRecord :=
  { c1DemoRec with
    name := "wider",
    param_types :=
      ["Int", "Int", "Int", "Int", "Int", "Int", "Int", "Int", "Int", "Int", "Int"] }

def c3DemoOrig : List Char := ("func f() \x7b\x7d\n").data

/-- A stand-in runtime block carrying the header of the generated per-file
namespace (the full text of build_perfile_runtime plays no role in the
delimiter detection, which the amended theorem settles for every block). -/
def c3DemoBlock : List Char := ("enum OBFFAB12 \x7b\x7d").data

def c9DemoFS : String → Option String :=
  fun p => if p = "Good.swift" then some "func g()" else none

def c9DemoExcFS : String → ExcFileRead :=
  fun p => if p = "rules.json" then ExcFileRead.rulesList [] else ExcFileRead.missing

/-! ## Theorems -/



theorem forall₂_blankRel_refl (l : List Char) : List.Forall₂ blankRel l l := by
  induction l with
  | nil => exact List.Forall₂.nil
  | cons c rest ih => exact List.Forall₂.cons (Or.inl rfl) ih

theorem forall₂_blankRel_keepNL (l : List Char) :
    List.Forall₂ blankRel l (blankKeepNL l) := by
  induction l with
  | nil => exact List.Forall₂.nil
  | cons c rest ih =>
    rw [blankKeepNL, List.map_cons]
    refine List.Forall₂.cons ?_ ih
    by_cases h : c = '\n'
    · subst h; simp [blankRel]
    · exact Or.inr ⟨by simp [h], h⟩

theorem blankRel_trans {a b c : Char} (h1 : blankRel a b) (h2 : blankRel b c) :
    blankRel a c := by
  rcases h1 with h1 | ⟨h1, h1n⟩
  · rcases h2 with h2 | ⟨h2, h2n⟩
    · exact Or.inl (h2.trans h1)
    · exact Or.inr ⟨h2, h1 ▸ h2n⟩
  · rcases h2 with h2 | ⟨h2, _⟩
    · exact Or.inr ⟨h2.trans h1, h1n⟩
    · exact Or.inr ⟨h2, h1n⟩

theorem forall₂_blankRel_trans : ∀ {a b c : List Char},
    List.Forall₂ blankRel a b → List.Forall₂ blankRel b c → List.Forall₂ blankRel a c
  | _, _, _, List.Forall₂.nil, List.Forall₂.nil => List.Forall₂.nil
  | _, _, _, List.Forall₂.cons h1 t1, List.Forall₂.cons h2 t2 =>
    List.Forall₂.cons (blankRel_trans h1 h2) (forall₂_blankRel_trans t1 t2)

theorem findSubGo_decomp (needle : List Char) : ∀ (s : List Char) (j i : Nat),
    findSubGo needle s j = some i →
    ∃ pre post, s = pre ++ needle ++ post ∧ j + pre.length = i := by
  intro s
  induction s with
  | nil =>
    intro j i h
    rw [findSubGo] at h
    split at h
    · next he =>
      refine ⟨[], [], ?_, ?_⟩
      · simp [List.isEmpty_iff] at he
        simp [he]
      · simp at h
        simpa using h
    · cases h
  | cons c rest ih =>
    intro j i h
    rw [findSubGo] at h
    split at h
    · next hp =>
      obtain ⟨post, hpost⟩ := List.isPrefixOf_iff_prefix.mp hp
      refine ⟨[], post, by simp [hpost.symm], ?_⟩
      simp at h
      simpa using h
    · obtain ⟨pre, post, hs, hlen⟩ := ih (j + 1) i h
      exact ⟨c :: pre, post, by simp [hs], by simp; omega⟩

theorem splitAtCloseComment_decomp (s a b : List Char)
    (h : splitAtCloseComment s = some (a, b)) : s = a ++ '*' :: '/' :: b := by
  rw [splitAtCloseComment] at h
  split at h
  · cases h
  · next i hi =>
    obtain ⟨pre, post, hs, hlen⟩ := findSubGo_decomp ['*', '/'] s 0 i hi
    simp at hlen
    have htake : s.take i = pre := by
      rw [hs, ← hlen, List.append_assoc, List.take_left]
    have hdrop : s.drop (i + 2) = post := by
      rw [hs, ← hlen]
      rw [show pre.length + 2 = (pre ++ ['*', '/']).length by simp]
      rw [List.append_assoc] at *
      rw [← List.append_assoc pre]
      exact List.drop_left _ _
    simp [htake, hdrop] at h
    rw [hs, ← h.1, ← h.2]
    simp

theorem forall₂_blankRel_blockGo (fuel : Nat) (s : List Char) :
    List.Forall₂ blankRel s (blankBlockGo fuel s) := by
  induction fuel, s using blankBlockGo.induct with
  | case1 s => exact forall₂_blankRel_refl s
  | case2 fuel => exact List.Forall₂.nil
  | case3 fuel rest h =>
    rw [blankBlockGo, h]
    exact forall₂_blankRel_refl _
  | case4 fuel rest inside after h ih =>
    rw [blankBlockGo, h]
    have hdec := splitAtCloseComment_decomp rest inside after h
    rw [hdec]
    refine List.Forall₂.cons (Or.inr ⟨rfl, by decide⟩)
      (List.Forall₂.cons (Or.inr ⟨rfl, by decide⟩) ?_)
    exact List.rel_append (forall₂_blankRel_keepNL inside)
      (List.Forall₂.cons (Or.inr ⟨rfl, by decide⟩)
        (List.Forall₂.cons (Or.inr ⟨rfl, by decide⟩) ih))
  | case5 fuel c rest hne ih =>
    rw [blankBlockGo]
    · exact List.Forall₂.cons (Or.inl rfl) ih
    · exact hne

theorem forall₂_blankRel_lineComments (s : List Char) :
    List.Forall₂ blankRel s (blankLineComments s) := by
  induction s using blankLineComments.induct
    (motive_2 := fun s => List.Forall₂ blankRel s (blankToEol s)) with
  | case1 => exact List.Forall₂.nil
  | case2 rest ih =>
    rw [blankLineComments]
    exact List.Forall₂.cons (Or.inr ⟨rfl, by decide⟩)
      (List.Forall₂.cons (Or.inr ⟨rfl, by decide⟩) ih)
  | case3 c rest hne ih =>
    rw [blankLineComments]
    · exact List.Forall₂.cons (Or.inl rfl) ih
    · exact hne
  | case4 => exact List.Forall₂.nil
  | case5 rest ih =>
    rw [blankToEol]
    exact List.Forall₂.cons (Or.inl rfl) ih
  | case6 c rest hne ih =>
    rw [blankToEol]
    · exact List.Forall₂.cons (Or.inr ⟨rfl, fun hc => hne hc⟩) ih
    · exact hne

theorem forall₂_blankRel_strip (s : List Char) :
    List.Forall₂ blankRel s (stripCommentsPreserveLayout s) :=
  forall₂_blankRel_trans (forall₂_blankRel_blockGo s.length s)
    (forall₂_blankRel_lineComments (blankBlockGo s.length s))

/-- C4: for every input string, _strip_comments_preserve_layout returns a
string of identical length and identical line structure — every newline of
the input is preserved at the same position and no newline is introduced —
and comment contents are replaced by spaces: every output character equals
the input character at its position or is a space (which never stands for
a newline), so brace and line counting over the scrubbed view agree with
the original text. -/
theorem c4_strip_comments_preserve_layout (s : List Char) :
    (stripCommentsPreserveLayout s).length = s.length
    ∧ (∀ i : Nat, (stripCommentsPreserveLayout s)[i]? = some '\n' ↔ s[i]? = some '\n')
    ∧ (∀ (i : Nat) (c d : Char), s[i]? = some c →
        (stripCommentsPreserveLayout s)[i]? = some d → d = c ∨ d = ' ') := by
  have hF := forall₂_blankRel_strip s
  have hlen := hF.length_eq
  have hget := (List.forall₂_iff_get.mp hF).2
  refine ⟨hlen.symm, ?_, ?_⟩
  · intro i
    by_cases hi : i < s.length
    · have hi2 : i < (stripCommentsPreserveLayout s).length := by omega
      rw [List.getElem?_eq_getElem hi, List.getElem?_eq_getElem hi2]
      have hrel := hget i hi hi2
      constructor
      · intro h
        have hd : (stripCommentsPreserveLayout s).get ⟨i, hi2⟩ = '\n' :=
          Option.some.inj h
        rcases hrel with heq | ⟨hsp, _⟩
        · exact congrArg some (heq.symm.trans hd)
        · rw [hsp] at hd
          exact absurd hd (by decide)
      · intro h
        have hc : s.get ⟨i, hi⟩ = '\n' := Option.some.inj h
        rcases hrel with heq | ⟨_, hnn⟩
        · exact congrArg some (heq.trans hc)
        · exact absurd hc hnn
    · have hi2 : ¬ i < (stripCommentsPreserveLayout s).length := by omega
      rw [List.getElem?_eq_none (by omega), List.getElem?_eq_none (by omega)]
  · intro i c d hc hd
    have hi : i < s.length := by
      by_contra hlt
      rw [List.getElem?_eq_none (by omega)] at hc
      cases hc
    have hi2 : i < (stripCommentsPreserveLayout s).length := by omega
    rw [List.getElem?_eq_getElem hi] at hc
    rw [List.getElem?_eq_getElem hi2] at hd
    have hrel := hget i hi hi2
    rcases hrel with heq | ⟨hsp, _⟩
    · left
      rw [← Option.some.inj hc, ← Option.some.inj hd]
      exact heq
    · right
      rw [← Option.some.inj hd]
      exact hsp

/-! C10 machinery: joining the split parts with commas restores the input
unless a trailing top-level comma was dropped. -/

theorem joinWith_concat (sep : List Char) : ∀ (xs : List (List Char)) (b : List Char),
    xs ≠ [] → joinWith sep (xs ++ [b]) = joinWith sep xs ++ sep ++ b := by
  intro xs
  induction xs with
  | nil => intro b hb; exact absurd rfl hb
  | cons x ys ih =>
    intro b _
    cases ys with
    | nil => simp [joinWith]
    | cons y zs =>
      calc joinWith sep ((x :: y :: zs) ++ [b])
          = x ++ sep ++ joinWith sep ((y :: zs) ++ [b]) := rfl
        _ = x ++ sep ++ (joinWith sep (y :: zs) ++ sep ++ b) := by
            rw [ih b (by simp)]
        _ = (x ++ sep ++ joinWith sep (y :: zs)) ++ sep ++ b := by
            simp [List.append_assoc]
        _ = joinWith sep (x :: y :: zs) ++ sep ++ b := rfl

theorem joinWith_last_snoc (sep : List Char) (xs : List (List Char)) (l : List Char)
    (c : Char) : joinWith sep (xs ++ [l ++ [c]]) = joinWith sep (xs ++ [l]) ++ [c] := by
  cases xs with
  | nil => simp [joinWith]
  | cons x ys =>
    rw [joinWith_concat sep (x :: ys) (l ++ [c]) (by simp),
        joinWith_concat sep (x :: ys) l (by simp)]
    simp [List.append_assoc]

theorem splitStep_join_one (st : SplitSt) (c : Char) :
    joinWith [','] ((splitStep st c).parts ++ [(splitStep st c).buf])
      = joinWith [','] (st.parts ++ [st.buf]) ++ [c] := by
  rw [splitStep]
  split
  · next hcond =>
    have hc : c = ',' := hcond.1
    show joinWith [','] ((st.parts ++ [st.buf]) ++ [[]])
      = joinWith [','] (st.parts ++ [st.buf]) ++ [c]
    rw [joinWith_concat [','] (st.parts ++ [st.buf]) [] (by simp), hc]
    simp
  · show joinWith [','] (st.parts ++ [st.buf ++ [c]])
      = joinWith [','] (st.parts ++ [st.buf]) ++ [c]
    exact joinWith_last_snoc [','] st.parts st.buf c

theorem splitStep_join (s : List Char) : ∀ (st : SplitSt),
    joinWith [','] ((s.foldl splitStep st).parts ++ [(s.foldl splitStep st).buf])
      = joinWith [','] (st.parts ++ [st.buf]) ++ s := by
  induction s with
  | nil => intro st; simp
  | cons c rest ih =>
    intro st
    rw [List.foldl_cons, ih (splitStep st c), splitStep_join_one st c,
        List.append_assoc]
    rfl

theorem updPar_comma (d : Nat) : updPar d ',' = d := rfl

theorem updBrk_comma (d : Nat) : updBrk d ',' = d := rfl

theorem updAng_comma (d : Nat) : updAng d ',' = d := rfl

theorem final_buf_empty (s : List Char) (hs : s ≠ [])
    (hbuf : (s.foldl splitStep splitInit).buf = []) :
    lastCharTopLevelComma s = true := by
  have hdec : s.dropLast ++ [s.getLast hs] = s := List.dropLast_append_getLast hs
  have hfold : s.foldl splitStep splitInit
      = splitStep (s.dropLast.foldl splitStep splitInit) (s.getLast hs) := by
    conv_lhs => rw [← hdec]
    rw [List.foldl_append]
    rfl
  rw [hfold] at hbuf
  rw [splitStep] at hbuf
  split at hbuf
  · next hcond =>
    obtain ⟨hc, h1, h2, h3⟩ := hcond
    rw [hc, updPar_comma] at h1
    rw [hc, updBrk_comma] at h2
    rw [hc, updAng_comma] at h3
    rw [lastCharTopLevelComma, List.getLast?_eq_getLast s hs, hc]
    simp [h1, h2, h3]
  · simp at hbuf

/-- C10: for every input string whose last character is not a top-level
comma (outside parentheses, square brackets and angle brackets), joining
the segments returned by _split_params_top with a single comma yields the
input exactly: the split loses, reorders and alters nothing except the
top-level commas it splits on. -/
theorem c10_split_params_top_join (s : List Char)
    (h : lastCharTopLevelComma s = false) :
    joinWith [','] (splitParamsTop s) = s := by
  rw [splitParamsTop]
  by_cases hs : s.isEmpty
  · rw [if_pos hs]
    rw [List.isEmpty_iff] at hs
    simp [joinWith, hs]
  · rw [if_neg hs]
    rw [List.isEmpty_iff] at hs
    have hinv := splitStep_join s splitInit
    have hinit : joinWith [','] (splitInit.parts ++ [splitInit.buf]) = [] := rfl
    rw [hinit] at hinv
    by_cases hb : (s.foldl splitStep splitInit).buf = []
    · exact absurd (final_buf_empty s hs hb) (by simp [h])
    · have hbe : ((s.foldl splitStep splitInit).buf.isEmpty) = false := by
        simp [List.isEmpty_iff, hb]
      simp only [hbe, Bool.false_eq_true, if_false]
      rw [hinv]
      simp

/-! C5: the route key formula. -/

theorem string_append_assoc (a b c : String) : (a ++ b) ++ c = a ++ (b ++ c) := by
  apply String.ext
  simp [String.data_append, List.append_assoc]

/-- C5: for every function record, the derived route key equals the
enclosing-type name followed by a dot (omitted when there is no enclosing
type), the function name, the ordered parameter types joined by
comma-space in parentheses, and an arrow plus the return type exactly
when a return type is present; in particular a function add with two
anonymous Int parameters and Int return in type A keys as
A.add(Int, Int) -> Int, the parameter types being derived from the raw
parameter source by the default-stripping comma split. -/
theorem c5_route_key (p n : String) (ts : List String) (r : String) :
    routeKey (some p) n ts (some r)
        = p ++ "." ++ (n ++ ("(" ++ (joinStr (", ") ts ++ (")" ++ (" -> " ++ r)))))
    ∧ routeKey none n ts (some r)
        = n ++ ("(" ++ (joinStr (", ") ts ++ (")" ++ (" -> " ++ r))))
    ∧ routeKey (some p) n ts none
        = p ++ "." ++ (n ++ ("(" ++ (joinStr (", ") ts ++ (")" ++ ""))))
    ∧ routeKey none n ts none = n ++ ("(" ++ (joinStr (", ") ts ++ (")" ++ "")))
    ∧ paramTypesFromSrc (String.data ("_ x: Int, _ y: Int")) = ["Int", "Int"]
    ∧ routeKey (some "A") "add" (paramTypesFromSrc (String.data ("_ x: Int, _ y: Int")))
        (some "Int") = "A.add(Int, Int) -> Int" := by
  refine ⟨?_, ?_, ?_, ?_, ?_, ?_⟩
  · rw [routeKey]
    simp only [string_append_assoc]
  · rw [routeKey]
    rw [String.empty_append]
    simp only [string_append_assoc]
  · rw [routeKey]
    simp only [string_append_assoc]
  · rw [routeKey]
    rw [String.empty_append]
    simp only [string_append_assoc]
  · rfl
  · rfl

/-! C7: the access-relaxation step widens private by exactly one level.

The substitution regex is word-bounded, so on a whitespace-joined list of
word tokens it maps each token private to fileprivate and leaves every
other token unchanged.  The lemmas below characterise the hand-compiled
scanner on such inputs. -/

theorem privChars : ("private").data = ['p', 'r', 'i', 'v', 'a', 't', 'e'] := rfl

theorem isW_privChars : ∀ c ∈ ("private").data, isW c = true := by decide

theorem go_eq_pattern (prevW : Bool) (rest : List Char) :
    replaceWordPrivGo prevW (("private").data ++ rest)
      = if !prevW && boundaryOK rest then
          (("fileprivate").data ++ (replaceWordPrivGo true rest).1,
            (replaceWordPrivGo true rest).2 + 1)
        else
          (("private").data ++ (replaceWordPrivGo true rest).1,
            (replaceWordPrivGo true rest).2) := by
  show replaceWordPrivGo prevW ('p' :: 'r' :: 'i' :: 'v' :: 'a' :: 't' :: 'e' :: rest) = _
  rw [replaceWordPrivGo]

theorem go_eq_general (prevW : Bool) (c : Char) (rest : List Char)
    (h : ¬ List.isPrefixOf (("private").data) (c :: rest)) :
    replaceWordPrivGo prevW (c :: rest)
      = ((c :: (replaceWordPrivGo (isW c) rest).1), (replaceWordPrivGo (isW c) rest).2) := by
  rw [replaceWordPrivGo]
  · intro r1 hc hr
    apply h
    subst hc
    subst hr
    rw [privChars]
    simp [List.isPrefixOf]

theorem go_nonword_head (tail : List Char) (htail : ∀ d ∈ tail.head?, isW d = false) :
    replaceWordPrivGo true tail = replaceWordPrivGo false tail := by
  cases tail with
  | nil => rfl
  | cons d t2 =>
    have hd : isW d = false := htail d rfl
    have hpre : ¬ List.isPrefixOf (("private").data) (d :: t2) := by
      intro hp
      rw [privChars] at hp
      simp [List.isPrefixOf] at hp
      rw [← hp.1] at hd
      exact absurd hd (by decide)
    rw [go_eq_general true d t2 hpre, go_eq_general false d t2 hpre]

theorem go_passthrough : ∀ (n : Nat) (w tail : List Char), w.length ≤ n →
    (∀ c ∈ w, isW c = true) → (∀ d ∈ tail.head?, isW d = false) →
    replaceWordPrivGo true (w ++ tail)
      = ((w ++ (replaceWordPrivGo true tail).1), (replaceWordPrivGo true tail).2) := by
  intro n
  induction n with
  | zero =>
    intro w tail hlen _ _
    have : w = [] := by
      cases w with
      | nil => rfl
      | cons c r => simp at hlen
    subst this
    simp
  | succ n ih =>
    intro w tail hlen hw htail
    by_cases hpre : List.isPrefixOf (("private").data) (w ++ tail) = true
    · obtain ⟨post, hpost⟩ := List.isPrefixOf_iff_prefix.mp hpre
      have hw7 : ∃ w2, w = ("private").data ++ w2 := by
        by_cases hlong : 7 ≤ w.length
        · refine ⟨w.drop 7, ?_⟩
          have htk : ("private").data = w.take 7 := by
            have h1 : (("private").data ++ post).take 7 = ("private").data := by
              rw [List.take_append_eq_append_take]
              simp [privChars]
            have h2 : (w ++ tail).take 7 = w.take 7 ++ tail.take (7 - w.length) := by
              rw [List.take_append_eq_append_take]
            rw [← hpost] at h2
            rw [h1] at h2
            have : 7 - w.length = 0 := by omega
            rw [this] at h2
            simpa using h2
          rw [htk]
          exact (List.take_append_drop 7 w).symm
        · exfalso
          have h2 : (w ++ tail).take 7 = w ++ tail.take (7 - w.length) := by
            rw [List.take_append_eq_append_take]
            congr 1
            exact List.take_of_length_le (by omega)
          rw [← hpost] at h2
          have h1 : (("private").data ++ post).take 7 = ("private").data := by
            rw [List.take_append_eq_append_take]
            simp [privChars]
          rw [h1] at h2
          cases tail with
          | nil =>
            have := congrArg List.length h2
            simp [privChars] at this
            omega
          | cons d t2 =>
            have hd : isW d = false := htail d rfl
            have hmem : d ∈ ("private").data := by
              rw [h2]
              have h7 : 1 ≤ 7 - w.length := by omega
              apply List.mem_append_right
              cases h7' : (7 - w.length) with
              | zero => omega
              | succ k => simp [List.take]
            have := isW_privChars d hmem
            rw [this] at hd
            cases hd
      obtain ⟨w2, rfl⟩ := hw7
      have hw2 : ∀ c ∈ w2, isW c = true := by
        intro c hc
        exact hw c (List.mem_append_right _ hc)
      have hlen2 : w2.length ≤ n := by
        rw [List.length_append, privChars] at hlen
        simp at hlen
        omega
      have heval : replaceWordPrivGo true ((("private").data ++ w2) ++ tail)
          = ((("private").data ++ (replaceWordPrivGo true (w2 ++ tail)).1),
             (replaceWordPrivGo true (w2 ++ tail)).2) := by
        rw [List.append_assoc]
        rw [go_eq_pattern true (w2 ++ tail)]
        simp
      rw [heval, ih w2 tail hlen2 hw2 htail]
      simp [List.append_assoc]
    · cases w with
      | nil => simp
      | cons c w2 =>
        have hc : isW c = true := hw c (by simp)
        have hpre2 : ¬ List.isPrefixOf (("private").data) (c :: (w2 ++ tail)) := by
          simpa using hpre
        rw [List.cons_append, go_eq_general true c (w2 ++ tail) hpre2, hc]
        rw [ih w2 tail (by simp at hlen; omega) (fun d hd => hw d (by simp [hd])) htail]
        simp

theorem go_token (w tail : List Char) (hne : w ≠ [])
    (hw : ∀ c ∈ w, isW c = true) (htail : ∀ d ∈ tail.head?, isW d = false) :
    replaceWordPrivGo false (w ++ tail)
      = (((if w = ("private").data then ("fileprivate").data else w)
            ++ (replaceWordPrivGo false tail).1),
         (replaceWordPrivGo false tail).2
           + (if w = ("private").data then 1 else 0)) := by
  by_cases hw7 : w = ("private").data
  · subst hw7
    have hbd : boundaryOK tail = true := by
      cases tail with
      | nil => rfl
      | cons d t2 =>
        have := htail d rfl
        simp [boundaryOK, this]
    rw [go_eq_pattern false tail]
    rw [go_nonword_head tail htail]
    simp [hbd]
  · by_cases hpre : List.isPrefixOf (("private").data) (w ++ tail) = true
    · obtain ⟨post, hpost⟩ := List.isPrefixOf_iff_prefix.mp hpre
      -- as in the passthrough lemma, the prefix must lie inside w
      have hw7b : ∃ w2, w = ("private").data ++ w2 := by
        by_cases hlong : 7 ≤ w.length
        · refine ⟨w.drop 7, ?_⟩
          have htk : ("private").data = w.take 7 := by
            have h1 : (("private").data ++ post).take 7 = ("private").data := by
              rw [List.take_append_eq_append_take]
              simp [privChars]
            have h2 : (w ++ tail).take 7 = w.take 7 ++ tail.take (7 - w.length) := by
              rw [List.take_append_eq_append_take]
            rw [← hpost] at h2
            rw [h1] at h2
            have : 7 - w.length = 0 := by omega
            rw [this] at h2
            simpa using h2
          rw [htk]
          exact (List.take_append_drop 7 w).symm
        · exfalso
          have h2 : (w ++ tail).take 7 = w ++ tail.take (7 - w.length) := by
            rw [List.take_append_eq_append_take]
            congr 1
            exact List.take_of_length_le (by omega)
          rw [← hpost] at h2
          have h1 : (("private").data ++ post).take 7 = ("private").data := by
            rw [List.take_append_eq_append_take]
            simp [privChars]
          rw [h1] at h2
          cases tail with
          | nil =>
            have := congrArg List.length h2
            simp [privChars] at this
            omega
          | cons d t2 =>
            have hd : isW d = false := htail d rfl
            have hmem : d ∈ ("private").data := by
              rw [h2]
              have h7 : 1 ≤ 7 - w.length := by omega
              apply List.mem_append_right
              cases h7' : (7 - w.length) with
              | zero => omega
              | succ k => simp [List.take]
            have := isW_privChars d hmem
            rw [this] at hd
            cases hd
      obtain ⟨w2, rfl⟩ := hw7b
      have hne2 : w2 ≠ [] := by
        intro hx
        apply hw7
        simp [hx]
      have hw2 : ∀ c ∈ w2, isW c = true := by
        intro c hcm
        exact hw c (List.mem_append_right _ hcm)
      have hbd : boundaryOK (w2 ++ tail) = false := by
        cases w2 with
        | nil => exact absurd rfl hne2
        | cons d t2 =>
          have := hw2 d (by simp)
          simp [boundaryOK, this]
      have heval : replaceWordPrivGo false ((("private").data ++ w2) ++ tail)
          = ((("private").data ++ (replaceWordPrivGo true (w2 ++ tail)).1),
             (replaceWordPrivGo true (w2 ++ tail)).2) := by
        rw [List.append_assoc]
        rw [go_eq_pattern false (w2 ++ tail)]
        simp [hbd]
      rw [heval]
      rw [go_passthrough (w2.length) w2 tail (le_refl _) hw2 htail]
      rw [go_nonword_head tail htail]
      simp [hw7, hne2, List.append_assoc]
    · cases w with
      | nil => exact absurd rfl hne
      | cons c w2 =>
        have hc : isW c = true := hw c (by simp)
        have hpre2 : ¬ List.isPrefixOf (("private").data) (c :: (w2 ++ tail)) := by
          simpa using hpre
        rw [List.cons_append, go_eq_general false c (w2 ++ tail) hpre2, hc]
        rw [go_passthrough (w2.length) w2 tail (le_refl _)
          (fun d hd => hw d (by simp [hd])) htail]
        rw [go_nonword_head tail htail]
        simp [hw7]

/-- The word-level action of the substitution on a whitespace-joined list
of word tokens. -/
theorem go_tokens : ∀ (toks : List (List Char)),
    (∀ w ∈ toks, w ≠ [] ∧ ∀ c ∈ w, isW c = true) →
    (replaceWordPrivateN (joinWith [' '] toks)).1
      = joinWith [' ']
          (toks.map (fun w => if w = ("private").data then ("fileprivate").data else w)) := by
  intro toks
  induction toks with
  | nil => intro _; rfl
  | cons w rest ih =>
    intro h
    obtain ⟨hne, hw⟩ := h w (by simp)
    cases rest with
    | nil =>
      show (replaceWordPrivGo false (joinWith [' '] [w])).1 = _
      rw [show joinWith [' '] [w] = w ++ [] by simp [joinWith]]
      rw [go_token w [] hne hw (by intro d hd; cases hd)]
      simp [joinWith]
      rfl
    | cons w2 rest2 =>
      have hjoin : joinWith [' '] (w :: w2 :: rest2)
          = w ++ (' ' :: joinWith [' '] (w2 :: rest2)) := by
        simp [joinWith]
      have hspHead : ∀ d ∈ (' ' :: joinWith [' '] (w2 :: rest2)).head?, isW d = false := by
        intro d hd
        simp at hd
        rw [← hd]
        decide
      have hsp : replaceWordPrivGo false (' ' :: joinWith [' '] (w2 :: rest2))
          = ((' ' :: (replaceWordPrivGo false (joinWith [' '] (w2 :: rest2))).1),
             (replaceWordPrivGo false (joinWith [' '] (w2 :: rest2))).2) := by
        have hiw : isW ' ' = false := by decide
        rw [go_eq_general false ' ' (joinWith [' '] (w2 :: rest2))
          (by rw [privChars]; simp [List.isPrefixOf]), hiw]
      show (replaceWordPrivGo false (joinWith [' '] (w :: w2 :: rest2))).1 = _
      rw [hjoin]
      rw [go_token w (' ' :: joinWith [' '] (w2 :: rest2)) hne hw hspHead]
      have ihr := ih (fun u hu => h u (by simp [hu]))
      show ((if w = ("private").data then ("fileprivate").data else w)
          ++ (replaceWordPrivGo false (' ' :: joinWith [' '] (w2 :: rest2))).1) = _
      rw [hsp]
      rw [show (replaceWordPrivGo false (joinWith [' '] (w2 :: rest2))).1
          = (replaceWordPrivateN (joinWith [' '] (w2 :: rest2))).1 from rfl]
      rw [ihr]
      simp [joinWith]

/-- C7: for every wrapped function whose modifier list contains the
least-visible access level private, the access-relaxation step of
_rename_and_add_wrapper rewrites every word-bounded private token of the
modifier block to fileprivate — exactly one step up the access ladder,
with every other token unchanged — and for a function with any other
access level (private absent from the modifier list) the step leaves the
text unchanged. -/
theorem c7_private_relaxation :
    (∀ (mods : List String) (toks : List (List Char)),
      (∀ w ∈ toks, w ≠ [] ∧ ∀ c ∈ w, isW c = true) →
      mods.contains ("private") = true →
      relaxPrivateInBlock mods (joinWith [' '] toks)
        = joinWith [' ']
            (toks.map (fun w => if w = ("private").data then ("fileprivate").data else w)))
    ∧ (∀ (mods : List String) (block : List Char),
      mods.contains ("private") = false → relaxPrivateInBlock mods block = block)
    ∧ accessLevels.indexOf "fileprivate" = accessLevels.indexOf "private" + 1 := by
  refine ⟨?_, ?_, ?_⟩
  · intro mods toks htoks hmem
    rw [relaxPrivateInBlock]
    rw [if_pos hmem]
    exact go_tokens toks htoks
  · intro mods block hmem
    have hne : ¬ (mods.contains ("private") = true) := by
      intro hx
      rw [hx] at hmem
      cases hmem
    rw [relaxPrivateInBlock, if_neg hne]
  · rfl

/-- Witness for C7 at a concrete modifier block. -/
theorem c7_private_relaxation_witness :
    relaxPrivateInBlock ["private"] (joinWith [' '] [("private").data, ("static").data])
      = joinWith [' '] ([("private").data, ("static").data].map
          (fun w => if w = ("private").data then ("fileprivate").data else w))
    ∧ relaxPrivateInBlock ["public"] (("public ").data) = ("public ").data :=
  ⟨c7_private_relaxation.1 ["private"] [("private").data, ("static").data]
      (by decide) (by decide),
   c7_private_relaxation.2.1 ["public"] (("public ").data) (by decide)⟩

/-! C1, C2, C6, C8: the injection pass. -/

theorem renameAndAddWrapper_impl_exists (src : List Char) (name : String)
    (parentType : Option String) (isStatic : Bool) (paramsSrc : String)
    (returnType : Option String) (routeKeyStr : String) (fileId : String)
    (modifiers : List String) (h : containsImplDecl src name = true) :
    renameAndAddWrapper src name parentType isStatic paramsSrc returnType
      routeKeyStr fileId modifiers = (src, false) := by
  simp only [renameAndAddWrapper]
  cases hidx : (splitLinesKeepEnds src).findIdx? (fun l => funcDeclLineMatch name.data l) with
  | none => rfl
  | some funcIdx => simp [h]

theorem injectStep_impl_noop (original : List Char) (fileId : String) (pol : Policy)
    (t : FuncRecord) (h : containsImplDecl original t.name = true) :
    injectStep original fileId pol { text := original, routes := [], recs := [] } t
      = { text := original, routes := [], recs := [] } := by
  rw [injectStep]
  split
  · rfl
  · rw [show ({ text := original, routes := [], recs := [] } : LoopSt).text = original
      from rfl]
    rw [renameAndAddWrapper_impl_exists original t.name t.parent_type t.is_static
      t.params_src t.return_type t.route_key fileId t.modifiers h]
    rfl

theorem injectLoop_impl_noop (original : List Char) (fileId : String) (pol : Policy) :
    ∀ (ts : List FuncRecord), (∀ t ∈ ts, containsImplDecl original t.name = true) →
    injectLoopRun original fileId pol ts
      = { text := original, routes := [], recs := [] } := by
  intro ts
  induction ts with
  | nil => intro _; rfl
  | cons t rest ih =>
    intro h
    rw [injectLoopRun, List.foldl_cons,
      injectStep_impl_noop original fileId pol t (h t (by simp))]
    rw [injectLoopRun] at ih
    exact ih (fun u hu => h u (by simp [hu]))

/-- C1: for every already-rewritten file a second run wraps zero
additional functions and leaves the file byte-identical: when the
renamed implementation sibling obfImpl-name already exists in the text,
_rename_and_add_wrapper returns the text unchanged with a did-not-wrap
result, and when that holds of every target, inject_per_file reports
untouched with wrapped count zero and performs no write. -/
theorem c1_second_run_noop :
    (∀ (src : List Char) (name : String) (parentType : Option String) (isStatic : Bool)
      (paramsSrc : String) (returnType : Option String) (routeKeyStr fileId : String)
      (modifiers : List String), containsImplDecl src name = true →
      renameAndAddWrapper src name parentType isStatic paramsSrc returnType routeKeyStr
        fileId modifiers = (src, false))
    ∧ (∀ (original : List Char) (fileId : String) (targets : List FuncRecord)
      (pol : Policy), (∀ t ∈ targets, containsImplDecl original t.name = true) →
      injectPerFile original fileId targets pol
        = { touched := false, wrappedCount := 0, written := none, wrappedRecs := [] }) := by
  constructor
  · intro src name parentType isStatic paramsSrc returnType routeKeyStr fileId modifiers h
    exact renameAndAddWrapper_impl_exists src name parentType isStatic paramsSrc
      returnType routeKeyStr fileId modifiers h
  · intro original fileId targets pol h
    rw [injectPerFile]
    by_cases he : targets.isEmpty
    · rw [if_pos he]
    · rw [if_neg he]
      rw [injectLoop_impl_noop original fileId pol targets h]
      rfl

theorem injectStep_recs_cases (orig : List Char) (fileId : String) (pol : Policy)
    (st : LoopSt) (t : FuncRecord) :
    (injectStep orig fileId pol st t).recs = st.recs ∨
    ((injectStep orig fileId pol st t).recs = st.recs ++ [t]
      ∧ injectSkip orig pol t = false) := by
  rw [injectStep]
  split
  · exact Or.inl rfl
  · next hskip =>
    have hval : injectSkip orig pol t = false := by
      simp at hskip
      exact hskip
    split
    · exact Or.inr ⟨rfl, hval⟩
    · exact Or.inl rfl

theorem injectLoop_recs_skip (orig : List Char) (fileId : String) (pol : Policy) :
    ∀ (ts : List FuncRecord) (st : LoopSt),
    (∀ u ∈ st.recs, injectSkip orig pol u = false) →
    ∀ u ∈ (ts.foldl (injectStep orig fileId pol) st).recs,
      injectSkip orig pol u = false := by
  intro ts
  induction ts with
  | nil => intro st hst; exact hst
  | cons t rest ih =>
    intro st hst
    rw [List.foldl_cons]
    apply ih
    intro u hu
    rcases injectStep_recs_cases orig fileId pol st t with hcase | ⟨hcase, hskip⟩
    · exact hst u (hcase ▸ hu)
    · rw [hcase] at hu
      rcases List.mem_append.mp hu with hin | hin
      · exact hst u hin
      · rw [List.mem_singleton.mp hin]
        exact hskip

theorem injectPerFile_recs_skip (orig : List Char) (fileId : String) (pol : Policy)
    (targets : List FuncRecord) :
    ∀ v ∈ (injectPerFile orig fileId targets pol).wrappedRecs,
      injectSkip orig pol v = false := by
  intro v hv
  rw [injectPerFile] at hv
  by_cases he : targets.isEmpty
  · rw [if_pos he] at hv
    cases hv
  · rw [if_neg he] at hv
    split at hv
    · cases hv
    · rw [injectLoopRun] at hv
      exact injectLoop_recs_skip orig fileId pol targets
        { text := orig, routes := [], recs := [] } (by intro x hx; cases hx) v hv



theorem c2cond_implies_skip (orig : List Char) (pol : Policy) (t : FuncRecord)
    (h : c2cond orig t = true) : injectSkip orig pol t = true := by
  cases hp : t.parent_type with
  | none =>
    rw [c2cond, hp] at h
    simp at h
    rw [injectSkip, hp]
    rcases h with h | h
    · simp [h]
    · simp [h]
  | some p =>
    rw [c2cond, hp] at h
    rw [injectSkip, hp]
    simp at h ⊢
    tauto

/-- C2: for every function record in a target list, inject_per_file never
wraps it when it is an instance method of a generic enclosing type, a
member of a nested type, an unguarded instance method on an actor or
global-actor parent, a member of a constrained extension, or a function
referencing a bare nested-type name of its parent: no such record ever
appears in the wrapped set. -/
theorem c2_safety_policy_sound (orig : List Char) (fileId : String) (pol : Policy)
    (targets : List FuncRecord) :
    (injectPerFile orig fileId targets pol).wrappedRecs.all
      (fun u => !(c2cond orig u)) = true := by
  rw [List.all_eq_true]
  intro u hu
  have hskip := injectPerFile_recs_skip orig fileId pol targets u hu
  by_contra hcc
  simp at hcc
  rw [c2cond_implies_skip orig pol u hcc] at hskip
  cases hskip

/-- C6: a function whose parameter count equals the configured maximum is
not rejected by the limit check of inject_per_file, and a function with
one more parameter than the maximum is rejected (the limit guard is the
first skip, so the whole filter skips it). -/
theorem c6_param_limit_boundary (pol : Policy) (orig : List Char) (t : FuncRecord) :
    (t.param_types.length = pol.maxParams → paramLimitSkip pol t = false)
    ∧ (t.param_types.length = pol.maxParams + 1 → injectSkip orig pol t = true) := by
  constructor
  · intro h
    rw [paramLimitSkip]
    simp [h]
  · intro h
    have hlim : paramLimitSkip pol t = true := by
      rw [paramLimitSkip]
      simp [h]
    rw [injectSkip, hlim]
    rfl

theorem injectStep_failed_noop (orig : List Char) (fileId : String) (pol : Policy)
    (t : FuncRecord)
    (h : injectSkip orig pol t = true ∨
      (renameAndAddWrapper orig t.name t.parent_type t.is_static t.params_src
        t.return_type t.route_key fileId t.modifiers).2 = false) :
    injectStep orig fileId pol { text := orig, routes := [], recs := [] } t
      = { text := orig, routes := [], recs := [] } := by
  rw [injectStep]
  split
  · rfl
  · next hskip =>
    rcases h with h | h
    · exact absurd h (by simpa using hskip)
    · rw [show ({ text := orig, routes := [], recs := [] } : LoopSt).text = orig from rfl]
      rw [if_neg (by simp [h])]

theorem injectLoop_failed_noop (orig : List Char) (fileId : String) (pol : Policy) :
    ∀ (ts : List FuncRecord),
    (∀ t ∈ ts, injectSkip orig pol t = true ∨
      (renameAndAddWrapper orig t.name t.parent_type t.is_static t.params_src
        t.return_type t.route_key fileId t.modifiers).2 = false) →
    injectLoopRun orig fileId pol ts = { text := orig, routes := [], recs := [] } := by
  intro ts
  induction ts with
  | nil => intro _; rfl
  | cons t rest ih =>
    intro h
    rw [injectLoopRun, List.foldl_cons,
      injectStep_failed_noop orig fileId pol t (h t (by simp))]
    rw [injectLoopRun] at ih
    exact ih (fun u hu => h u (by simp [hu]))

/-- C8: a file in which no function ends up wrapped — an empty target
list, or every target skipped by the filters or failing to rewrite — is
left untouched by inject_per_file: nothing is written and no per-file
dispatch runtime block is injected. -/
theorem c8_zero_wrapped_no_write :
    (∀ (orig : List Char) (fileId : String) (pol : Policy),
      injectPerFile orig fileId [] pol
        = { touched := false, wrappedCount := 0, written := none, wrappedRecs := [] })
    ∧ (∀ (orig : List Char) (fileId : String) (targets : List FuncRecord) (pol : Policy),
      (∀ t ∈ targets, injectSkip orig pol t = true ∨
        (renameAndAddWrapper orig t.name t.parent_type t.is_static t.params_src
          t.return_type t.route_key fileId t.modifiers).2 = false) →
      injectPerFile orig fileId targets pol
        = { touched := false, wrappedCount := 0, written := none, wrappedRecs := [] })
    ∧ (∀ (orig : List Char) (fileId : String) (targets : List FuncRecord) (pol : Policy),
      (injectPerFile orig fileId targets pol).wrappedCount = 0 →
      (injectPerFile orig fileId targets pol).written = none
        ∧ (injectPerFile orig fileId targets pol).touched = false) := by
  refine ⟨?_, ?_, ?_⟩
  · intro orig fileId pol
    rw [injectPerFile]
    rfl
  · intro orig fileId targets pol h
    rw [injectPerFile]
    by_cases he : targets.isEmpty
    · rw [if_pos he]
    · rw [if_neg he]
      rw [injectLoop_failed_noop orig fileId pol targets h]
      rfl
  · intro orig fileId targets pol h
    rw [injectPerFile] at h ⊢
    by_cases he : targets.isEmpty
    · rw [if_pos he] at h ⊢
      exact ⟨rfl, rfl⟩
    · rw [if_neg he] at h ⊢
      split at h
      · next hz =>
        rw [if_pos hz]
        exact ⟨rfl, rfl⟩
      · next hz =>
        rw [if_neg hz]
        simp at h
        exact absurd (by simp [h]) hz







/-- Witness for C1 on a file that already contains the implementation
sibling: the second run touches nothing. -/
theorem c1_second_run_noop_witness :
    containsImplDecl c1DemoSrc "add" = true
    ∧ injectPerFile c1DemoSrc "AB12" [c1DemoRec] demoPolicy
        = { touched := false, wrappedCount := 0, written := none, wrappedRecs := [] } :=
  ⟨by decide,
   c1_second_run_noop.2 c1DemoSrc "AB12" [c1DemoRec] demoPolicy
     (by
       intro t ht
       rw [List.mem_singleton.mp ht]
       decide)⟩

/-- Witness for C4 on a concrete commented text. -/
theorem c4_strip_comments_witness :
    (stripCommentsPreserveLayout (("a // b\n/* c */ d").data)).length
        = (("a // b\n/* c */ d").data).length
    ∧ ('a' = 'a' ∨ 'a' = ' ') :=
  ⟨(c4_strip_comments_preserve_layout (("a // b\n/* c */ d").data)).1,
   (c4_strip_comments_preserve_layout (("a // b\n/* c */ d").data)).2.2 0 'a' 'a'
     (by decide) (by decide)⟩

/-- Witness for C6 at the boundary: ten parameters pass the limit check of
ten, eleven are skipped. -/
theorem c6_param_limit_witness :
    paramLimitSkip demoPolicy c6AtLimitRec = false
    ∧ injectSkip [] demoPolicy c6OverLimitRec = true :=
  ⟨(c6_param_limit_boundary demoPolicy [] c6AtLimitRec).1 (by decide),
   (c6_param_limit_boundary demoPolicy [] c6OverLimitRec).2 (by decide)⟩

/-- Witness for C8: a file whose single target is over the parameter
limit, and a file with no targets at all, are both left unwritten. -/
theorem c8_zero_wrapped_witness :
    injectPerFile [] "AB12" [c6OverLimitRec] demoPolicy
        = { touched := false, wrappedCount := 0, written := none, wrappedRecs := [] }
    ∧ injectPerFile [] "AB12" ([] : List FuncRecord) demoPolicy
        = { touched := false, wrappedCount := 0, written := none, wrappedRecs := [] } :=
  ⟨c8_zero_wrapped_no_write.2.1 [] "AB12" [c6OverLimitRec] demoPolicy
     (by
       intro t ht
       rw [List.mem_singleton.mp ht]
       left
       decide),
   c8_zero_wrapped_no_write.1 [] "AB12" demoPolicy⟩

/-- Witness for C10 on a parameter list with nested commas. -/
theorem c10_split_params_witness :
    lastCharTopLevelComma (("a: Int, b: (Int, Int)").data) = false
    ∧ joinWith [','] (splitParamsTop (("a: Int, b: (Int, Int)").data))
        = ("a: Int, b: (Int, Int)").data :=
  ⟨by decide, c10_split_params_top_join (("a: Int, b: (Int, Int)").data) (by decide)⟩

/-! C3: the delimiters of inject_or_replace_block are empty, so the
detect-and-replace branch is dead; repeated application duplicates the
injected runtime block.  C3 is settled as corrected. -/





/-- Counterexample for C3 as stated: applying inject_or_replace_block a
second time to its own output leaves two copies of the injected runtime
header in the file, so a file can contain two injected blocks. -/
theorem c3_counterexample :
    countSubAt (("enum OBFFAB12").data)
      (injectOrReplaceBlock (injectOrReplaceBlock c3DemoOrig c3DemoBlock) c3DemoBlock)
      = 2 := by decide

/-- C3 amended: because both delimiters are configured as the empty
string, inject_or_replace_block never detects an existing block; every
call prepends the new block (together with the import handling), and on a
text already holding the import line it hoists the import lines to the
top and still prepends another block. -/
theorem c3_amended_always_prepends (orig block : List Char) :
    (containsSub orig importNeedle = false →
      injectOrReplaceBlock orig block
        = (("import StringSecurity\n").data ++ block) ++ ("\n\n").data ++ orig)
    ∧ (containsSub orig importNeedle = true →
      injectOrReplaceBlock orig block
        = block ++ ("\n\n").data ++
            joinWith ['\n']
              (((splitOnChar '\n' orig).filter (fun l => containsSub l importNeedle))
                ++ [[]] ++
                ((splitOnChar '\n' orig).filter (fun l => !containsSub l importNeedle)))) := by
  constructor
  · intro h
    rw [injectOrReplaceBlock]
    simp [OBF_BEGIN, h]
  · intro h
    rw [injectOrReplaceBlock]
    simp [OBF_BEGIN, h]

/-- Witness for the amended C3 on concrete texts, one without and one
with the StringSecurity header line. -/
theorem c3_amended_witness :
    injectOrReplaceBlock c3DemoOrig (("BLOCK").data)
        = (("import StringSecurity\n").data ++ ("BLOCK").data) ++ ("\n\n").data ++ c3DemoOrig
    ∧ injectOrReplaceBlock (("import StringSecurity\nlet x = 1\n").data) (("BLOCK").data)
        = ("BLOCK").data ++ ("\n\n").data ++
            joinWith ['\n']
              (((splitOnChar '\n' (("import StringSecurity\nlet x = 1\n").data)).filter
                  (fun l => containsSub l importNeedle))
                ++ [[]] ++
                ((splitOnChar '\n' (("import StringSecurity\nlet x = 1\n").data)).filter
                  (fun l => !containsSub l importNeedle))) :=
  ⟨(c3_amended_always_prepends c3DemoOrig (("BLOCK").data)).1 (by decide),
   (c3_amended_always_prepends (("import StringSecurity\nlet x = 1\n").data)
      (("BLOCK").data)).2 (by decide)⟩

/-! C9: missing or unreadable exception files are fatal, but an
unreadable source file is silently skipped and the scan continues, so the
claim that both abort the run is settled as corrected. -/





/-- Counterexample for C9 as stated: with the first source file
unreadable, the scan does not abort; it skips that file, processes the
next one and returns normally. -/
theorem c9_counterexample :
    scanFilesSkipUnreadable Nat (fun c => [c.length]) c9DemoFS
      ["Bad.swift", "Good.swift"] = [8] := by decide

theorem loadExceptionsGo_missing_error (fs : String → ExcFileRead) :
    ∀ (paths : List String) (acc : List ExcRule) (p : String),
    p ∈ paths → fs p = ExcFileRead.missing →
    ∃ msg, loadExceptionsGo fs paths acc = Except.error msg := by
  intro paths
  induction paths with
  | nil => intro acc p hp; cases hp
  | cons q rest ih =>
    intro acc p hp hmiss
    rw [loadExceptionsGo]
    cases hq : fs q with
    | missing => exact ⟨_, rfl⟩
    | unreadable => exact ⟨_, rfl⟩
    | otherJson => exact ⟨_, rfl⟩
    | rulesList rs =>
      rcases List.mem_cons.mp hp with rfl | hp2
      · rw [hq] at hmiss
        cases hmiss
      · exact ih (acc ++ rs) p hp2 hmiss
    | rulesObj rs =>
      rcases List.mem_cons.mp hp with rfl | hp2
      · rw [hq] at hmiss
        cases hmiss
      · exact ih (acc ++ rs) p hp2 hmiss

/-- C9 amended: a missing exception file is fatal — load_exceptions
aborts the whole run with an error — while a missing or unreadable source
file is not: scan_swift_functions silently skips it and continues with
the remaining files. -/
theorem c9_amended_error_taxonomy :
    (∀ (fs : String → ExcFileRead) (paths : List String) (p : String),
      p ∈ paths → fs p = ExcFileRead.missing →
      ∃ msg, loadExceptions fs paths = Except.error msg)
    ∧ (∀ (α : Type) (perFile : String → List α) (fs : String → Option String)
        (p : String) (rest : List String), fs p = none →
        scanFilesSkipUnreadable α perFile fs (p :: rest)
          = scanFilesSkipUnreadable α perFile fs rest) := by
  constructor
  · intro fs paths p hp hmiss
    rw [loadExceptions]
    rw [if_neg (by
      intro he
      rw [List.isEmpty_iff] at he
      rw [he] at hp
      cases hp)]
    exact loadExceptionsGo_missing_error fs paths [] p hp hmiss
  · intro α perFile fs p rest h
    rw [scanFilesSkipUnreadable, scanFilesSkipUnreadable, List.foldl_cons, h]

/-- Witness for the amended C9 on a concrete file system. -/
theorem c9_amended_witness :
    (∃ msg, loadExceptions c9DemoExcFS ["absent.json"] = Except.error msg)
    ∧ scanFilesSkipUnreadable Nat (fun c => [c.length]) c9DemoFS
        ["Bad.swift", "Good.swift"]
      = scanFilesSkipUnreadable Nat (fun c => [c.length]) c9DemoFS ["Good.swift"] :=
  ⟨c9_amended_error_taxonomy.1 c9DemoExcFS ["absent.json"] "absent.json"
     (by simp) (by decide),
   c9_amended_error_taxonomy.2 Nat (fun c => [c.length]) c9DemoFS "Bad.swift"
     ["Good.swift"] (by decide)⟩

end LastPy
